import Mathlib

/-!
Shallow embedding of the smart-chunker service
(`src/services/smart_chunker.py`, class `SmartChunker`).

Modeling conventions:
* Python strings are Lean `String`s viewed as their list of unicode scalar
  values (`String.data`); Python `len` is `pyLen`, which counts code points,
  exactly as Python does.
* Python `str.strip` / the regex class `\s` are modeled over the ASCII
  whitespace characters (space, tab, LF, CR, VT, FF); every input considered
  in this development is ASCII.
* The regular expressions of the source are hand-compiled to deterministic
  character-machines that realize Python's leftmost, greedy-with-backtracking
  match semantics for those concrete patterns (the derivations are given at
  each definition).
* Python floats are modeled as exact rationals (`ℚ`); the float literals in
  the quality-score code (`1.0`, `0.3`, `0.1`, `0.2`, `2.0`) and the
  comparisons they enter are exact at every magnitude that occurs here.
* Python integers are `Nat` where the source only ever holds non-negative
  values (sizes, counts, offsets).
-/

namespace SChunk

/-- ASCII whitespace: what Python's `str.strip()` and the regex class `\s`
recognize on ASCII text. -/
def pyWs (c : Char) : Bool :=
  c == ' ' || c == '\t' || c == '\n' || c == '\r' || c == '\x0b' || c == '\x0c'

/-- Python `len` on a string: number of code points. -/
def pyLen (s : String) : Nat := s.data.length

/-- `str.strip()` on a character list. -/
def stripList (l : List Char) : List Char :=
  ((l.dropWhile pyWs).reverse.dropWhile pyWs).reverse

/-- Python `str.strip()` (ASCII whitespace). -/
def pyStrip (s : String) : String := ⟨stripList s.data⟩

/-- Python `str.rstrip()` (ASCII whitespace). -/
def pyRstrip (s : String) : String := ⟨(s.data.reverse.dropWhile pyWs).reverse⟩

/-- ASCII lowercasing of one character, Python `str.lower()` per char. -/
def asciiLower (c : Char) : Char :=
  if 'A' ≤ c && c ≤ 'Z' then Char.ofNat (c.toNat + 32) else c

/-- Python `str.lower()` (ASCII). -/
def pyLower (s : String) : String := ⟨s.data.map asciiLower⟩

/-- Python `s.count(c)` for a single-character needle. -/
def pyCountCh (s : String) (c : Char) : Nat := s.data.count c

/-- Python `c in s` for a single character. -/
def pyHasCh (s : String) (c : Char) : Bool := s.data.contains c

/-- Contiguous-sublist test on lists (needle first). -/
def isSubLA (pat : List Char) : List Char → Bool
  | [] => pat.isEmpty
  | c :: cs => pat.isPrefixOf (c :: cs) || isSubLA pat cs

/-- Python `pat in s` substring containment. -/
def pyInStr (pat s : String) : Bool := isSubLA pat.data s.data

/-- Python `s.split(sep)` for a one-character separator, on lists. -/
def splitChAux (sep : Char) : List Char → List (List Char)
  | [] => [[]]
  | c :: cs =>
    if c = sep then [] :: splitChAux sep cs
    else
      match splitChAux sep cs with
      | [] => [[c]]
      | p :: ps => (c :: p) :: ps

/-- Python `s.split(sep)` for a one-character separator. -/
def splitCh (sep : Char) (s : String) : List String :=
  (splitChAux sep s.data).map (⟨·⟩)

/-! ### The sentence separator `[.!?]+\s+` (field `self.sentence_pattern`)

`re.split(r'[.!?]+\s+', text)`: a separator is a maximal run of
sentence punctuation immediately followed by at least one whitespace
character; the separator (punctuation run plus the maximal whitespace run)
is removed.  No match can start strictly inside a punctuation run whose end
is not followed by whitespace, so a single left-to-right pass with three
modes (normal text / inside a punctuation run / inside the whitespace of a
confirmed separator) realizes `re.split` for this pattern exactly. -/

def isPunct (c : Char) : Bool := c == '.' || c == '!' || c == '?'

inductive SSMode where
  | norm : SSMode
  | punct : List Char → SSMode
  | ws : SSMode

/-- Scanner for `re.split(r'[.!?]+\s+', ·)`.  `acc` is the reversed current
piece; in mode `punct run`, `run` is the reversed pending punctuation run
(still unconfirmed as a separator). -/
def sentSplitGo : List Char → SSMode → List Char → List (List Char)
  | [], .punct run, acc => [(run ++ acc).reverse]
  | [], _, acc => [acc.reverse]
  | c :: cs, .norm, acc =>
    if isPunct c then sentSplitGo cs (.punct [c]) acc
    else sentSplitGo cs .norm (c :: acc)
  | c :: cs, .punct run, acc =>
    if isPunct c then sentSplitGo cs (.punct (c :: run)) acc
    else if pyWs c then acc.reverse :: sentSplitGo cs .ws []
    else sentSplitGo cs .norm (c :: run ++ acc)
  | c :: cs, .ws, acc =>
    if isPunct c then sentSplitGo cs (.punct [c]) acc
    else if pyWs c then sentSplitGo cs .ws acc
    else sentSplitGo cs .norm (c :: acc)

/-- `re.split(self.sentence_pattern, text)`. -/
def sentSplit (s : String) : List String :=
  (sentSplitGo s.data .norm []).map (⟨·⟩)

/-! ### `_extract_meaningful_overlap` and `_add_intelligent_overlap` -/

/-- The accumulation loop of `_extract_meaningful_overlap`: walk the split
sentences in reverse; skip empties after stripping; while the guard
`len(overlap) + len(sentence) + 1 <= max_overlap` holds, prepend
`sentence + ". "`; `break` (return the accumulator) at the first failure. -/
def extractLoop (maxOv : Nat) : List String → String → String
  | [], ov => ov
  | s :: rest, ov =>
    let t := pyStrip s
    if t = "" then extractLoop maxOv rest ov
    else if pyLen ov + pyLen t + 1 ≤ maxOv then
      extractLoop maxOv rest (if ov = "" then t else t ++ ". " ++ ov)
    else ov

/-- `SmartChunker._extract_meaningful_overlap(text, max_overlap)`. -/
def extract_meaningful_overlap (maxOv : Nat) (text : String) : String :=
  if pyLen text ≤ maxOv then text
  else pyStrip (extractLoop maxOv (sentSplit text).reverse "")

/-- `SmartChunker._add_intelligent_overlap(chunks, original_text)`.
(The `original_text` argument is unused by the source.)  Python's guard
`self.overlap_size <= 0` is `overlapSize = 0` for the `Nat` model.
Note the separator prepended between overlap and chunk is the two-character
literal backslash-`n` (the source writes `"\\n"` inside a normal string). -/
def add_intelligent_overlap (overlapSize : Nat) (chunks : List String) : List String :=
  if chunks.length ≤ 1 || overlapSize == 0 then chunks
  else
    match chunks with
    | [] => []
    | c0 :: rest =>
      c0 :: List.zipWith (fun prev cur =>
        let ov := extract_meaningful_overlap overlapSize prev
        if ov ≠ "" then ov ++ "\\n" ++ cur else cur) (c0 :: rest) rest

/-! ### The paragraph separator `\n\s*\n` (field `self.paragraph_pattern`)

`re.split(r'\n\s*\n', text)`: a match starts at a newline; `\s*` is greedy
but must leave a final `\n`, so the match extends through the **last**
newline of the maximal whitespace run that follows; whitespace after that
last newline belongs to the next piece.  A run containing no further newline
admits no match anywhere inside it (only `\n` can start a match). -/

/-- Scanner for `re.split(r'\n\s*\n', ·)`.  `acc` is the reversed current
piece; `some buf` means a newline was read and `buf` is the reversed
whitespace run accumulated after it. -/
def paraSplitGo : List Char → Option (List Char) → List Char → List (List Char)
  | [], none, acc => [acc.reverse]
  | [], some buf, acc =>
    if buf.contains '\n' then
      acc.reverse :: [(buf.takeWhile (fun b => !(b == '\n'))).reverse]
    else [acc.reverse ++ '\n' :: buf.reverse]
  | c :: cs, none, acc =>
    if c = '\n' then paraSplitGo cs (some []) acc
    else paraSplitGo cs none (c :: acc)
  | c :: cs, some buf, acc =>
    if pyWs c then paraSplitGo cs (some (c :: buf)) acc
    else if buf.contains '\n' then
      acc.reverse :: paraSplitGo cs none (c :: buf.takeWhile (fun b => !(b == '\n')))
    else paraSplitGo cs none (c :: buf ++ '\n' :: acc)

/-- `re.split(self.paragraph_pattern, text)`. -/
def paraSplit (s : String) : List String :=
  (paraSplitGo s.data none []).map (⟨·⟩)

/-! ### `text.split('. ')` (used by `_classify_chunk`)

Leftmost non-overlapping occurrences of the two-character pattern; a single
look-behind flag ("the previous unconsumed character was a dot") suffices. -/

/-- Scanner for Python `text.split('. ')`. -/
def dotSplitGo : List Char → Bool → List Char → List (List Char)
  | [], pend, acc => [(if pend then '.' :: acc else acc).reverse]
  | c :: cs, false, acc =>
    if c = '.' then dotSplitGo cs true acc else dotSplitGo cs false (c :: acc)
  | c :: cs, true, acc =>
    if c = ' ' then acc.reverse :: dotSplitGo cs false []
    else if c = '.' then dotSplitGo cs true ('.' :: acc)
    else dotSplitGo cs false (c :: '.' :: acc)

/-- Python `text.split('. ')`. -/
def dotSplit (s : String) : List String :=
  (dotSplitGo s.data false []).map (⟨·⟩)

/-! ### `len(re.findall(r'^\s*\d+\.', sample, re.MULTILINE))`
(used by `_detect_document_type`)

A match is anchored at a line start, takes the greedy (maximal) whitespace
run — which may span newlines — then a non-empty digit run, then a literal
dot.  `\s`, `\d` and `.` are pairwise disjoint here, so backtracking never
changes the outcome, and a failed attempt from one line start fails from
every line start inside the same whitespace run, which justifies the single
forward pass below. -/

inductive TechSt where
  | idle : Bool → TechSt
  | ws : TechSt
  | digs : TechSt

/-- Counter for `re.findall(r'^\s*\d+\.', ·, re.MULTILINE)`.  The `idle b`
state records whether the next position is a line start. -/
def countTechGo : List Char → TechSt → Nat
  | [], _ => 0
  | c :: cs, .idle true =>
    if pyWs c then countTechGo cs .ws
    else if c.isDigit then countTechGo cs .digs
    else countTechGo cs (.idle (c == '\n'))
  | c :: cs, .idle false => countTechGo cs (.idle (c == '\n'))
  | c :: cs, .ws =>
    if pyWs c then countTechGo cs .ws
    else if c.isDigit then countTechGo cs .digs
    else countTechGo cs (.idle (c == '\n'))
  | c :: cs, .digs =>
    if c.isDigit then countTechGo cs .digs
    else if c = '.' then 1 + countTechGo cs (.idle false)
    else countTechGo cs (.idle (c == '\n'))

/-- `len(re.findall(r'^\s*\d+\.', s, re.MULTILINE))`. -/
def countNumberedLines (s : String) : Nat := countTechGo s.data (.idle true)

/-! ### `len(re.findall(r'\\d+\\.', text))` (used by `_classify_chunk`)

In the source this pattern is written `r'\\d+\\.'` — a **raw** string, so
the regex sees `\\d+\\.`: a literal backslash, one or more letters `d`, a
literal backslash, then any character except newline.  It does **not**
match decimal numbered-list markers such as `1.`. -/

inductive EscSt where
  | idle : EscSt
  | bs1 : EscSt
  | ds : EscSt
  | bs2 : EscSt

/-- Counter for `re.findall(r'\\d+\\.', ·)` (matches look like `\dd\x`). -/
def countEscGo : List Char → EscSt → Nat
  | [], _ => 0
  | c :: cs, .idle => countEscGo cs (if c = '\\' then .bs1 else .idle)
  | c :: cs, .bs1 =>
    if c = 'd' then countEscGo cs .ds
    else if c = '\\' then countEscGo cs .bs1
    else countEscGo cs .idle
  | c :: cs, .ds =>
    if c = 'd' then countEscGo cs .ds
    else if c = '\\' then countEscGo cs .bs2
    else countEscGo cs .idle
  | c :: cs, .bs2 =>
    if c = '\n' then countEscGo cs .idle
    else 1 + countEscGo cs .idle

/-- `len(re.findall(r'\\d+\\.', s))`. -/
def countEscDMark (s : String) : Nat := countEscGo s.data .idle

/-! ### The markdown separator-row pattern `\|[-\s|:]+\|` -/

/-- The character class `[-\s|:]`. -/
def isSepClass (c : Char) : Bool := c == '-' || pyWs c || c == '|' || c == ':'

inductive SepSt where
  | idle : SepSt
  | afterPipe : SepSt
  | inClass : SepSt

/-- Search machine for `re.search(r'\|[-\s|:]+\|', ·)`: an opening pipe,
at least one class character, then a closing pipe (eager acceptance is sound
and complete for existence since `|` itself belongs to the class). -/
def mdSepGo : List Char → SepSt → Bool
  | [], _ => false
  | c :: cs, .idle => mdSepGo cs (if c = '|' then .afterPipe else .idle)
  | c :: cs, .afterPipe =>
    if isSepClass c then mdSepGo cs .inClass else mdSepGo cs .idle
  | c :: cs, .inClass =>
    if c = '|' then true
    else if isSepClass c then mdSepGo cs .inClass
    else mdSepGo cs .idle

/-- `bool(re.search(r'\|[-\s|:]+\|', s))`. -/
def mdSepSearchB (s : String) : Bool := mdSepGo s.data .idle

/-- Tail of the anchored matcher below: whether the remainder begins with
one-or-more class characters followed by a pipe; `seen` records that at
least one class character was consumed. -/
def mdSepAnchGo : List Char → Bool → Bool
  | [], _ => false
  | c :: cs, seen =>
    if c = '|' && seen then true
    else if isSepClass c then mdSepAnchGo cs true
    else false

/-- `bool(re.match(r'^\|[-\s|:]+\|', s))` (anchored at the start). -/
def mdSepAnchoredB (s : String) : Bool :=
  match s.data with
  | '|' :: rest => mdSepAnchGo rest false
  | _ => false

/-! ### `_split_by_sentences` and `_narrative_chunking` -/

/-- The packing loop of `_split_by_sentences`: guard
`len(current_chunk) + len(sentence) + 1 <= target_size`; join with a single
space; on failure flush the (stripped) buffer and restart from the
sentence. -/
def sentencePackLoop (target : Nat) : List String → String → List String
  | [], cur => if cur ≠ "" then [pyStrip cur] else []
  | s :: ss, cur =>
    if pyLen cur + pyLen s + 1 ≤ target then
      sentencePackLoop target ss (if cur = "" then s else cur ++ " " ++ s)
    else
      (if cur ≠ "" then [pyStrip cur] else []) ++ sentencePackLoop target ss s

/-- `SmartChunker._split_by_sentences(text)`. -/
def split_by_sentences (target : Nat) (text : String) : List String :=
  let sentences := ((sentSplit text).map pyStrip).filter (· ≠ "")
  sentencePackLoop target sentences ""

/-- The packing loop of `_narrative_chunking`: overflow guard
`len(current_chunk) + len(paragraph) + 2 > target_size`; on overflow with a
non-empty buffer, flush it (stripped) and restart the buffer from the
paragraph (even an oversized one); on overflow with an empty buffer, a
paragraph longer than `max_size` is sentence-split, a shorter one emitted
alone; otherwise append, joined by the four-character literal `\n\n`
escape sequence (the source writes `"\\n\\n"` in a normal string, i.e.
backslash-n-backslash-n, not two newlines). -/
def narrLoop (target maxSize : Nat) : List String → String → List String
  | [], cur => if cur ≠ "" then [pyStrip cur] else []
  | p :: ps, cur =>
    if target < pyLen cur + pyLen p + 2 then
      if cur ≠ "" then pyStrip cur :: narrLoop target maxSize ps p
      else if maxSize < pyLen p then
        split_by_sentences target p ++ narrLoop target maxSize ps ""
      else p :: narrLoop target maxSize ps ""
    else narrLoop target maxSize ps (if cur = "" then p else cur ++ "\\n\\n" ++ p)

/-- `SmartChunker._narrative_chunking(text)`. -/
def narrative_chunking (target maxSize : Nat) (text : String) : List String :=
  let paragraphs := ((paraSplit text).map pyStrip).filter (· ≠ "")
  narrLoop target maxSize paragraphs ""

/-! ### `_classify_chunk` and `_calculate_quality_score` -/

/-- `SmartChunker._classify_chunk(text)`.  The first guard is Python's
`'|' in text and text.count('|') > 4`; the list guard counts matches of the
mis-escaped pattern `r'\\d+\\.'` (see `countEscDMark`); the header guard is
`re.search(r'^(Section|Article|Chapter)', text, re.IGNORECASE)`, which,
without `re.MULTILINE`, anchors at the start of the string only. -/
def classify_chunk (text : String) : String :=
  if pyHasCh text '|' && pyCountCh text '|' > 4 then
    if pyInStr "TABLEAU" text then "azure_table"
    else if mdSepSearchB text then "markdown_table"
    else "formatted_table"
  else if countEscDMark text > 2 then "list"
  else if List.isPrefixOf "section".data (pyLower text).data
      || List.isPrefixOf "article".data (pyLower text).data
      || List.isPrefixOf "chapter".data (pyLower text).data then "section_header"
  else if (dotSplit text).length > 5 then "paragraph"
  else "fragment"

/-- `text.rstrip().endswith(('.', '!', '?'))`. -/
def endsTerminalB (text : String) : Bool :=
  match (pyRstrip text).data.getLast? with
  | some c => isPunct c
  | none => false

/-- `text.strip() and text.strip()[0].islower()` (ASCII lowercase). -/
def startsLowerB (text : String) : Bool :=
  match (pyStrip text).data with
  | c :: _ => 'a' ≤ c && c ≤ 'z'
  | [] => false

/-- `SmartChunker._calculate_quality_score(text)`, with floats as exact
rationals.  For `target = 0` the Python source raises `ZeroDivisionError`
(Lean's total `ℚ` division yields `0` instead); every theorem that touches
the ratio assumes `0 < target`. -/
def calculate_quality_score (target : Nat) (text : String) : ℚ :=
  let score : ℚ := 1
  let lr : ℚ := (pyLen text : ℚ) / (target : ℚ)
  let score := if lr < 3/10 ∨ 2 < lr then score - 3/10 else score
  let score := if endsTerminalB text then score + 1/10 else score
  let score := if startsLowerB text then score - 1/5 else score
  max 0 (min 1 score)

/-! ### Configuration (`SmartChunker.__init__`)

The constructor of the source only stores its arguments; it performs no
validation of any kind (no check of `target_size ≤ max_size` nor of
`overlap_size < target_size`), so construction never fails and is modeled
as a total record constructor. -/

structure ChunkerConfig where
  target_size : Nat
  max_size : Nat
  overlap_size : Nat
  strategy : String
  table_strategy : String
  table_max_rows_per_chunk : Nat
  table_always_include_headers : Bool
  table_semantic_grouping : Bool
  table_column_chunking : Bool
deriving DecidableEq, Repr

/-- `SmartChunker.__init__`: assigns every argument to the corresponding
attribute, unconditionally. -/
def SmartChunker_init (target_chunk_size max_chunk_size overlap_size : Nat)
    (strategy table_strategy : String) (table_max_rows_per_chunk : Nat)
    (table_always_include_headers table_semantic_grouping table_column_chunking : Bool) :
    ChunkerConfig :=
  { target_size := target_chunk_size
    max_size := max_chunk_size
    overlap_size := overlap_size
    strategy := strategy
    table_strategy := table_strategy
    table_max_rows_per_chunk := table_max_rows_per_chunk
    table_always_include_headers := table_always_include_headers
    table_semantic_grouping := table_semantic_grouping
    table_column_chunking := table_column_chunking }

/-- The default construction `SmartChunker()`. -/
def defaultConfig : ChunkerConfig :=
  SmartChunker_init 500 800 100 "smart" "preserve_structure" 10 true true false

/-! ### Table detection (`_detect_table_structures` and helpers)

Lines of the text annotated with their start offset and whether they are
terminated by a newline; MULTILINE `^` positions are exactly the recorded
line starts (including the empty pseudo-line after a final newline). -/

/-- Split into (line, endsWithNewline) pairs. -/
def toLinesAux : List Char → List (List Char × Bool)
  | [] => [([], false)]
  | c :: cs =>
    if c = '\n' then ([], true) :: toLinesAux cs
    else
      match toLinesAux cs with
      | [] => [([c], false)]
      | (l, b) :: ls => (c :: l, b) :: ls

/-- Annotate each line with its start offset. -/
def annotGo : Nat → List (List Char × Bool) → List (Nat × List Char × Bool)
  | _, [] => []
  | pos, (l, b) :: rest => (pos, l, b) :: annotGo (pos + l.length + (if b then 1 else 0)) rest

def linesAnnot (cs : List Char) : List (Nat × List Char × Bool) :=
  annotGo 0 (toLinesAux cs)

/-- Python `text[a:b]` (for `0 ≤ a ≤ b ≤ len`). -/
def sliceStr (s : String) (a b : Nat) : String := ⟨(s.data.drop a).take (b - a)⟩

/-! `formatted_rows`: `^[^\n]*\|[^\n]*$` (MULTILINE) — any full line that
contains a pipe; the match is the whole line, newline excluded. -/

def fmtSpans (text : String) : List (Nat × Nat) :=
  (linesAnnot text.data).filterMap (fun t =>
    if t.2.1.contains '|' then some (t.1, t.1 + t.2.1.length) else none)

/-! `ascii_table`: `^[\+\-\|][\-\+\|]*[\+\-\|]$` (MULTILINE) — a full line of
length at least 2 made entirely of `+`, `-`, `|`. -/

def isAsciiTblLine (l : List Char) : Bool :=
  decide (2 ≤ l.length) && l.all (fun c => c == '+' || c == '-' || c == '|')

def asciiSpans (text : String) : List (Nat × Nat) :=
  (linesAnnot text.data).filterMap (fun t =>
    if isAsciiTblLine t.2.1 then some (t.1, t.1 + t.2.1.length) else none)

/-! `markdown`:
`\|[^\n]*\|[^\n]*\n\|[-\s|:]+\|[^\n]*\n(\|[^\n]*\|[^\n]*\n)+`.
The first segment starts at the first `|` of a line containing at least two
pipes and consumes to the end of that (newline-terminated) line; the second
segment is a newline-terminated line starting with `|` whose prefix matches
`\|[-\s|:]+\|`; then one or more (greedy, maximal) newline-terminated lines
starting with `|` and containing a second pipe.  Every candidate start
inside one line succeeds or fails together (the conditions on the following
lines are shared), so the scan advances line by line; after a match the
scan resumes at the first unconsumed line, as `re.finditer` does. -/

def pipeCount (l : List Char) : Nat := l.count '|'

/-- A data-row line of the markdown pattern: newline-terminated, starts with
`|`, and has a second pipe. -/
def mdRow (l : List Char) (b : Bool) : Bool :=
  b && (l.head? == some '|') && decide (2 ≤ pipeCount l)

def mdScanGo : Nat → List (Nat × List Char × Bool) → List (Nat × Nat)
  | 0, _ => []
  | _, [] => []
  | fuel + 1, (p, l, b) :: rest =>
    if b && decide (2 ≤ pipeCount l) then
      match rest with
      | [] => []
      | (p2, l2, b2) :: rest2 =>
        if b2 && mdSepAnchoredB ⟨l2⟩ then
          let dataRows := rest2.takeWhile (fun t => mdRow t.2.1 t.2.2)
          if dataRows ≠ [] then
            let endOff := dataRows.foldl (fun a t => a + t.2.1.length + 1) (p2 + l2.length + 1)
            (p + l.findIdx (· == '|'), endOff) ::
              mdScanGo fuel (rest2.dropWhile (fun t => mdRow t.2.1 t.2.2))
          else mdScanGo fuel rest
        else mdScanGo fuel rest
    else mdScanGo fuel rest

/-! `csv_like`: `^[^,\n]+,[^,\n]+.*\n([^,\n]+,[^,\n]+.*\n){2,}` (MULTILINE).
A qualifying line is newline-terminated, does not start with a comma, has a
first comma not in first position, and the character right after that first
comma is not a comma (the first `[^,\n]+` can only stop at the line's first
comma, so backtracking adds nothing).  A match is a maximal run of at least
three consecutive qualifying lines, anchored at a line start. -/

def csvLine (l : List Char) (b : Bool) : Bool :=
  let pre := l.takeWhile (fun c => !(c == ','))
  b && !pre.isEmpty &&
    (match l.drop pre.length with
     | ',' :: r2 =>
       match r2.head? with
       | some c => !(c == ',')
       | none => false
     | _ => false)

def csvScanGo : Nat → List (Nat × List Char × Bool) → List (Nat × Nat)
  | 0, _ => []
  | _, [] => []
  | fuel + 1, (p, l, b) :: rest =>
    if csvLine l b then
      let run := rest.takeWhile (fun t => csvLine t.2.1 t.2.2)
      if 2 ≤ run.length then
        let endOff := run.foldl (fun a t => a + t.2.1.length + 1) (p + l.length + 1)
        (p, endOff) :: csvScanGo fuel (rest.dropWhile (fun t => csvLine t.2.1 t.2.2))
      else csvScanGo fuel rest
    else csvScanGo fuel rest

/-! `azure_table`: `--- TABLEAU \d+ ---[^-]*?(?=--- |$)` with
MULTILINE and DOTALL.  After the literal header (with a maximal digit run),
the lazy `[^-]*?` stops at the first position where the lookahead holds:
either the text continues with `--- `, or MULTILINE `$` holds (a newline or
the end of the input); a `-` that opens neither alternative kills the
attempt (the class excludes it and no backtracking can recover). -/

def azureLazy : List Char → Nat → Option Nat
  | [], n => some n
  | c :: cs, n =>
    if List.isPrefixOf "--- ".data (c :: cs) then some n
    else if c = '\n' then some n
    else if c = '-' then none
    else azureLazy cs (n + 1)

def azureTry (cs : List Char) : Option Nat :=
  if List.isPrefixOf "--- TABLEAU ".data cs then
    let rest := cs.drop 12
    let ds := rest.takeWhile Char.isDigit
    if ds ≠ [] ∧ List.isPrefixOf " ---".data (rest.drop ds.length) then
      match azureLazy (rest.drop (ds.length + 4)) 0 with
      | some n => some (12 + ds.length + 4 + n)
      | none => none
    else none
  else none

/-- Generic unanchored `re.finditer` driver: try a match at every position,
consume it on success, advance one character on failure.  All matchers fed
to it only ever succeed with positive lengths; `fuel` is the input length
plus one. -/
def scanAllGo (tryM : List Char → Option Nat) : Nat → List Char → Nat → List (Nat × Nat)
  | 0, _, _ => []
  | _, [], _ => []
  | fuel + 1, c :: rest, p =>
    match tryM (c :: rest) with
    | some len =>
      if len = 0 then scanAllGo tryM fuel rest (p + 1)
      else (p, p + len) :: scanAllGo tryM fuel ((c :: rest).drop len) (p + len)
    | none => scanAllGo tryM fuel rest (p + 1)

def azureSpans (text : String) : List (Nat × Nat) :=
  scanAllGo azureTry (text.data.length + 1) text.data 0

/-! ### Table metadata (`_estimate_columns`, `_has_header_row`,
`_classify_table_type`, `_merge_overlapping_tables`) -/

/-- `SmartChunker._estimate_columns(table_content)`.  Python computes the
average as float division then truncates with `int(...)`; all quantities are
non-negative, so this is `Nat` floor division (exact at every realistic
magnitude). -/
def estimate_columns (content : String) : Nat :=
  let lines := ((splitCh '\n' content).map pyStrip).filter (· ≠ "")
  if lines = [] then 0
  else
    [ '|', ',', '\t', ';' ].foldl (fun mx sep =>
      let colCounts := ((lines.filter (fun l => pyHasCh l sep)).map
        (fun l => pyCountCh l sep + 1))
      if colCounts = [] then mx
      else max mx (colCounts.sum / colCounts.length)) 0

/-- `SmartChunker._has_header_row(table_content, table_type)`. -/
def has_header_row (content ttype : String) : Bool :=
  let lines := ((splitCh '\n' content).map pyStrip).filter (· ≠ "")
  if lines.length < 2 then false
  else if ttype = "markdown" then mdSepAnchoredB (lines.getD 1 "")
  else if ttype = "azure_table" then pyInStr "TABLEAU" (lines.getD 0 "")
  else
    let first := lines.getD 0 ""
    decide ((first.data.filter (fun c => c.isDigit)).length
      < (first.data.filter (fun c => c.isAlpha)).length)

/-- `SmartChunker._classify_table_type(table_content)`. -/
def classify_table_type (content : String) : String :=
  let cl := pyLower content
  let anyIn := fun (ks : List String) => ks.any (fun k => pyInStr k cl)
  if anyIn ["prix", "coût", "montant", "€", "$", "budget", "facture"] then "financial"
  else if anyIn ["date", "heure", "planning", "délai", "échéance"] then "temporal"
  else if anyIn ["nom", "prénom", "contact", "email", "téléphone"] then "contact_list"
  else if anyIn ["spécification", "paramètre", "config", "propriété", "valeur"] then "specification"
  else if anyIn ["article", "clause", "alinéa", "paragraphe", "section"] then "legal"
  else "general"

/-- The table-span record built by `_detect_table_structures` (`stop` is the
Python dict key `end`, a reserved word in Lean). -/
structure TableInfo where
  type : String
  start : Nat
  stop : Nat
  content : String
  row_count : Nat
  estimated_columns : Nat
  has_headers : Bool
  table_classification : String
deriving DecidableEq, Repr

/-- Stable insertion (by `start`) for the stable Python `list.sort`. -/
def insertByStart (x : TableInfo) : List TableInfo → List TableInfo
  | [] => [x]
  | y :: ys => if x.start ≤ y.start then x :: y :: ys else y :: insertByStart x ys

def sortByStart : List TableInfo → List TableInfo
  | [] => []
  | x :: xs => insertByStart x (sortByStart xs)

/-- The merge loop of `_merge_overlapping_tables`. -/
def mergeGo (cur : TableInfo) : List TableInfo → List TableInfo
  | [] => [cur]
  | n :: rest =>
    if n.start ≤ cur.stop then
      mergeGo
        { cur with
          stop := max cur.stop n.stop
          content := cur.content ++ "\n" ++ n.content
          row_count := cur.row_count + n.row_count
          type := if n.type ≠ "formatted_rows" then n.type else cur.type } rest
    else cur :: mergeGo n rest

/-- `SmartChunker._merge_overlapping_tables(tables)`. -/
def merge_overlapping_tables : List TableInfo → List TableInfo
  | [] => []
  | t :: ts => mergeGo t ts

/-- Build one `TableInfo` from a raw span, as the detection loop does. -/
def mkTableInfo (text ttype : String) (sp : Nat × Nat) : TableInfo :=
  let content := sliceStr text sp.1 sp.2
  { type := ttype
    start := sp.1
    stop := sp.2
    content := content
    row_count := (splitCh '\n' content).length
    estimated_columns := estimate_columns content
    has_headers := has_header_row content ttype
    table_classification := classify_table_type content }

/-- `SmartChunker._detect_table_structures(text)`: the five pattern families
in the source's dict order, stably sorted by start offset, then merged.  (The
`try/except` in the source is dead for these fixed, valid patterns.) -/
def detect_table_structures (text : String) : List TableInfo :=
  let ann := linesAnnot text.data
  let n := text.data.length + 1
  let spans :=
    (mdScanGo n ann).map (mkTableInfo text "markdown") ++
    (asciiSpans text).map (mkTableInfo text "ascii_table") ++
    (csvScanGo n ann).map (mkTableInfo text "csv_like") ++
    (fmtSpans text).map (mkTableInfo text "formatted_rows") ++
    (azureSpans text).map (mkTableInfo text "azure_table")
  merge_overlapping_tables (sortByStart spans)

/-! ### `_chunk_markdown_table` -/

/-- The row loop of `_chunk_markdown_table`: flush when the proposed chunk
would exceed `target_size` or the row counter has reached
`table_max_rows_per_chunk`; a flush emits the (stripped) current chunk only
when it differs from the bare header prefix. -/
def mdLoop (target maxRows : Nat) (base : String) : List String → String → Nat → List String
  | [], cur, _ => if cur ≠ base then [pyStrip cur] else []
  | l :: ls, cur, rows =>
    let proposed := cur ++ l ++ "\n"
    if target < pyLen proposed || maxRows ≤ rows then
      (if cur ≠ base then [pyStrip cur] else []) ++
        mdLoop target maxRows base ls (base ++ l ++ "\n") 1
    else mdLoop target maxRows base ls proposed (rows + 1)

/-- `SmartChunker._chunk_markdown_table(table)` (on the table's content). -/
def chunk_markdown_table (target maxRows : Nat) (content : String) : List String :=
  let lines := (splitCh '\n' content).filter (fun l => pyStrip l ≠ "")
  if lines.length < 2 then [content]
  else
    let header := lines.getD 0 ""
    let sep := if pyHasCh (lines.getD 1 "") '|' then lines.getD 1 "" else ""
    let dataLines :=
      if 2 < lines.length then lines.drop 2
      else if sep = "" then lines.drop 1
      else []
    let base := (if sep ≠ "" then header ++ "\n" ++ sep else header) ++ "\n"
    let chunks := mdLoop target maxRows base dataLines base 0
    if chunks = [] then [content] else chunks

/-! ### `_chunk_large_table` and its helpers -/

/-- Python word characters `\w` (ASCII). -/
def isWordCh (c : Char) : Bool := c.isAlpha || c.isDigit || c == '_'

def dateSep (c : Char) : Bool := c == '/' || c == '-' || c == '.'

/-- One attempt of the date pattern
`\b\d{1,2}[/\-\.]\d{1,2}[/\-\.]\d{2,4}\b|\b\d{4}\b` at a position whose
left word-boundary is already established and whose first character is a
digit.  Because digits, the separators and word boundaries are disjoint,
the greedy counted repetitions are forced to take complete digit runs, so
the whole alternation is decided without search. -/
def dateTry (cs : List Char) : Option (List Char) :=
  let l1 := cs.takeWhile Char.isDigit
  let b1 : Option (List Char) :=
    if l1.length = 1 ∨ l1.length = 2 then
      match cs.drop l1.length with
      | s1 :: r1 =>
        if dateSep s1 then
          let l2 := r1.takeWhile Char.isDigit
          if l2.length = 1 ∨ l2.length = 2 then
            match r1.drop l2.length with
            | s2 :: r2 =>
              if dateSep s2 then
                let l3 := r2.takeWhile Char.isDigit
                if 2 ≤ l3.length ∧ l3.length ≤ 4 then
                  match r2.drop l3.length with
                  | [] => some (l1 ++ s1 :: l2 ++ s2 :: l3)
                  | c :: _ =>
                    if isWordCh c then none else some (l1 ++ s1 :: l2 ++ s2 :: l3)
                else none
              else none
            | [] => none
          else none
        else none
      | [] => none
    else none
  match b1 with
  | some m => some m
  | none =>
    if l1.length = 4 then
      match cs.drop 4 with
      | [] => some (cs.take 4)
      | c :: _ => if isWordCh c then none else some (cs.take 4)
    else none

/-- Driver for `re.findall` of the date pattern: tracks the previous
character for the left word boundary `\b`. -/
def dateScanGo : Nat → Option Char → List Char → List (List Char)
  | 0, _, _ => []
  | _, _, [] => []
  | fuel + 1, prev, c :: rest =>
    let boundary := match prev with
      | none => true
      | some q => !isWordCh q
    if boundary && c.isDigit then
      match dateTry (c :: rest) with
      | some m => m :: dateScanGo fuel m.getLast? ((c :: rest).drop m.length)
      | none => dateScanGo fuel (some c) rest
    else dateScanGo fuel (some c) rest

def findDates (cs : List Char) : List (List Char) := dateScanGo (cs.length + 1) none cs

def lenDiffLt50 (l1 l2 : String) : Bool :=
  decide ((Int.ofNat (pyLen l1) - Int.ofNat (pyLen l2)).natAbs < 50)

/-- `SmartChunker._lines_semantically_related(line1, line2, table_type)`.
In the temporal branch, when either line has no date match Python falls
through to the final length heuristic. -/
def lines_semantically_related (line1 line2 ttype : String) : Bool :=
  if ttype = "financial" then
    (["€", "$", "£", "USD", "EUR"].find? (fun c => pyInStr c line1))
      == (["€", "$", "£", "USD", "EUR"].find? (fun c => pyInStr c line2))
  else if ttype = "temporal" then
    let d1 := findDates line1.data
    let d2 := findDates line2.data
    if d1 ≠ [] ∧ d2 ≠ [] then
      (d1.find? (fun d => d.length == 4)) == (d2.find? (fun d => d.length == 4))
    else lenDiffLt50 line1 line2
  else lenDiffLt50 line1 line2

/-- Fixed-size slicing `[data_lines[i:i+m] for i in range(0, len, m)]`.
(Python raises `ValueError` when `m = 0`; the fuel makes the model total.) -/
def slicesGo (m : Nat) : Nat → List String → List (List String)
  | _, [] => []
  | 0, _ => []
  | fuel + 1, l => l.take m :: slicesGo m fuel (l.drop m)

def slicesOf (m : Nat) (l : List String) : List (List String) := slicesGo m l.length l

/-- The run-building loop of the financial/temporal branches of
`_identify_semantic_groups`: returns the flushed groups in order together
with the final unflushed group. -/
def grpRelGo (ty : String) : List String → List String → (List (List String) × List String)
  | [], cur => ([], cur)
  | l :: ls, cur =>
    if lines_semantically_related (cur.getLastD "") l ty then grpRelGo ty ls (cur ++ [l])
    else
      let r := grpRelGo ty ls [l]
      (cur :: r.1, r.2)

/-- `SmartChunker._identify_semantic_groups(data_lines, table)`. -/
def identify_semantic_groups (cfg : ChunkerConfig) (dataLines : List String)
    (t : TableInfo) : List (List String) :=
  if dataLines = [] then []
  else
    let cls := t.table_classification
    if cls = "financial" ∨ cls = "temporal" then
      match dataLines with
      | [] => []
      | d0 :: rest =>
        let r := grpRelGo cls rest [d0]
        let groups :=
          if r.2 ≠ [] ∧ (r.1 = [] ∨ r.1.getLast? ≠ some r.2) then r.1 ++ [r.2] else r.1
        if groups = [] then [dataLines] else groups
    else
      let groups := slicesOf cfg.table_max_rows_per_chunk dataLines
      if groups = [] then [dataLines] else groups

/-- The packing loop of `_subdivide_table_group`. -/
def subdivGo (cfg : ChunkerConfig) (headerLines : List String) (hc : Nat) :
    List String → List String → List String
  | [], cur =>
    if cur ≠ [] ∧ hc < cur.length then [String.intercalate "\n" cur] else []
  | l :: ls, cur =>
    let proposed := String.intercalate "\n" (cur ++ [l])
    if cfg.target_size < pyLen proposed ∧ hc < cur.length then
      String.intercalate "\n" cur :: subdivGo cfg headerLines hc ls (headerLines ++ [l])
    else subdivGo cfg headerLines hc ls (cur ++ [l])

/-- `SmartChunker._subdivide_table_group(chunk_content, header_lines)`. -/
def subdivide_table_group (cfg : ChunkerConfig) (chunkContent : String)
    (headerLines : List String) : List String :=
  let lines := splitCh '\n' chunkContent
  let dataLines := lines.drop headerLines.length
  let subs := subdivGo cfg headerLines headerLines.length dataLines headerLines
  if subs = [] then [chunkContent] else subs

/-- `SmartChunker._chunk_large_table(table)`. -/
def chunk_large_table (cfg : ChunkerConfig) (t : TableInfo) : List String :=
  let lines := (splitCh '\n' t.content).filter (fun l => pyStrip l ≠ "")
  let hd : List String × Nat :=
    if t.has_headers then
      if t.type = "markdown" ∧ 2 ≤ lines.length then (lines.take 2, 2)
      else if t.type = "azure_table" then
        let dsi :=
          match lines.findIdx? (fun l => !(List.isPrefixOf "---".data l.data) && pyHasCh l '|') with
          | some i => i
          | none => 0
        (if 0 < dsi then lines.take dsi else [], dsi)
      else (if lines ≠ [] then [lines.getD 0 ""] else [], 1)
    else ([], 0)
  let dataLines := lines.drop hd.2
  let groups :=
    if cfg.table_semantic_grouping then identify_semantic_groups cfg dataLines t
    else slicesOf cfg.table_max_rows_per_chunk dataLines
  groups.flatMap (fun g =>
    let chunkLines :=
      (if cfg.table_always_include_headers ∧ hd.1 ≠ [] then hd.1 else []) ++ g
    let cc := String.intercalate "\n" chunkLines
    if cfg.max_size < pyLen cc then subdivide_table_group cfg cc hd.1 else [cc])

/-! ### `_chunk_reference_table`, `_chunk_small_table`,
`_chunk_table_intelligently` -/

/-- `SmartChunker._group_reference_entries(lines, table)`: identity. -/
def group_reference_entries (lines : List String) (_t : TableInfo) : List String := lines

/-- The packing loop of `_chunk_reference_table`. -/
def refGo (cfg : ChunkerConfig) (t : TableInfo) (lines : List String) :
    List String → List String → List String
  | [], cur => if cur ≠ [] then [String.intercalate "\n" cur] else []
  | g :: gs, cur =>
    let proposed := String.intercalate "\n" (cur ++ [g])
    if cfg.target_size < pyLen proposed ∧ cur ≠ [] then
      String.intercalate "\n" cur ::
        refGo cfg t lines gs
          ((if cfg.table_always_include_headers ∧ t.has_headers then
              (if t.type = "markdown" ∧ 2 ≤ lines.length then lines.take 2
               else [lines.getD 0 ""])
            else []) ++ [g])
    else refGo cfg t lines gs (cur ++ [g])

/-- `SmartChunker._chunk_reference_table(table)`. -/
def chunk_reference_table (cfg : ChunkerConfig) (t : TableInfo) : List String :=
  let lines := (splitCh '\n' t.content).filter (fun l => pyStrip l ≠ "")
  let lg := group_reference_entries lines t
  let init : List String × List String :=
    if t.has_headers ∧ lines ≠ [] then
      if t.type = "markdown" ∧ 2 ≤ lines.length then (lines.take 2, lg.drop 2)
      else ([lines.getD 0 ""], lg.drop 1)
    else ([], lg)
  let chunks := refGo cfg t lines init.2 init.1
  if chunks = [] then [t.content] else chunks

/-- `SmartChunker._is_reference_table(table)`. -/
def is_reference_table (t : TableInfo) : Bool :=
  ["définition", "description", "référence", "glossaire", "index", "code",
   "nom", "valeur", "type", "paramètre"].any (fun k => pyInStr k (pyLower t.content))

/-- `SmartChunker._chunk_small_table(table)`. -/
def chunk_small_table (cfg : ChunkerConfig) (t : TableInfo) : List String :=
  if pyLen t.content ≤ cfg.max_size then [t.content] else chunk_large_table cfg t

/-- `SmartChunker._chunk_table_intelligently(table)`. -/
def chunk_table_intelligently (cfg : ChunkerConfig) (t : TableInfo) : List String :=
  if t.type = "markdown" then
    chunk_markdown_table cfg.target_size cfg.table_max_rows_per_chunk t.content
  else if cfg.table_max_rows_per_chunk * 2 < t.row_count then chunk_large_table cfg t
  else if is_reference_table t then chunk_reference_table cfg t
  else chunk_small_table cfg t

/-! ### `_table_aware_chunking` -/

/-- The walk of `_table_aware_chunking` over the merged spans, carrying
`last_pos`; plain text between spans goes through `_chunk_regular_text`,
which is `_narrative_chunking`. -/
def tawGo (cfg : ChunkerConfig) (text : String) : List TableInfo → Nat → List String
  | [], lastPos =>
    if lastPos < pyLen text then
      let rem := pyStrip (sliceStr text lastPos (pyLen text))
      if rem ≠ "" then narrative_chunking cfg.target_size cfg.max_size rem else []
    else []
  | t :: ts, lastPos =>
    (if lastPos < t.start then
      (let pre := pyStrip (sliceStr text lastPos t.start)
       if pre ≠ "" then narrative_chunking cfg.target_size cfg.max_size pre else [])
     else []) ++ chunk_table_intelligently cfg t ++ tawGo cfg text ts t.stop

/-- `SmartChunker._table_aware_chunking(text, detected_tables)`. -/
def table_aware_chunking (cfg : ChunkerConfig) (text : String)
    (tables : List TableInfo) : List String :=
  tawGo cfg text tables 0

/-! ### `_detect_sections` (four anchored patterns,
`re.MULTILINE | re.IGNORECASE`) -/

/-- Case-insensitive literal prefix test (the literal given lowercase). -/
def ciLitAt (pat : List Char) (cs : List Char) : Bool :=
  decide ((cs.take pat.length).map asciiLower = pat)

/-- `^\s*(?:Section|Article|Chapitre|Chapter)\s+\d+`: greedy whitespace
(possibly spanning newlines), one of four mutually exclusive case-insensitive
literals, mandatory whitespace, mandatory digits. -/
def tryS1 (cs : List Char) : Option Nat :=
  let w := cs.takeWhile pyWs
  let r1 := cs.drop w.length
  let wl : Option Nat :=
    if ciLitAt "section".data r1 then some 7
    else if ciLitAt "article".data r1 then some 7
    else if ciLitAt "chapitre".data r1 then some 8
    else if ciLitAt "chapter".data r1 then some 7
    else none
  match wl with
  | none => none
  | some n =>
    let r2 := r1.drop n
    let w2 := r2.takeWhile pyWs
    if w2 = [] then none
    else
      let ds := (r2.drop w2.length).takeWhile Char.isDigit
      if ds = [] then none else some (w.length + n + w2.length + ds.length)

/-- `^\s*\d+\.\s+[A-Z]` (with IGNORECASE, `[A-Z]` matches any ASCII
letter). -/
def tryS2 (cs : List Char) : Option Nat :=
  let w := cs.takeWhile pyWs
  let r1 := cs.drop w.length
  let ds := r1.takeWhile Char.isDigit
  if ds = [] then none
  else
    match r1.drop ds.length with
    | '.' :: r2 =>
      let w2 := r2.takeWhile pyWs
      if w2 = [] then none
      else
        match r2.drop w2.length with
        | c :: _ => if c.isAlpha then some (w.length + ds.length + 1 + w2.length + 1) else none
        | [] => none
    | _ => none

/-- `^\s*[A-Z]+\.\s+` (with IGNORECASE). -/
def tryS3 (cs : List Char) : Option Nat :=
  let w := cs.takeWhile pyWs
  let r1 := cs.drop w.length
  let ls := r1.takeWhile Char.isAlpha
  if ls = [] then none
  else
    match r1.drop ls.length with
    | '.' :: r2 =>
      let w2 := r2.takeWhile pyWs
      if w2 = [] then none else some (w.length + ls.length + 1 + w2.length)
    | _ => none

/-- `^\s*#+\s+`. -/
def tryS4 (cs : List Char) : Option Nat :=
  let w := cs.takeWhile pyWs
  let hs := (cs.drop w.length).takeWhile (· == '#')
  if hs = [] then none
  else
    let w2 := (cs.drop (w.length + hs.length)).takeWhile pyWs
    if w2 = [] then none else some (w.length + hs.length + w2.length)

/-- `re.finditer` driver for patterns anchored with MULTILINE `^`:
positions are tried one by one exactly as `re` does, the anchor holding at
offset 0 and after each newline; a successful match is consumed whole. -/
def anchoredScanGo (tryM : List Char → Option Nat) :
    Nat → List Char → Nat → Bool → List (Nat × Nat)
  | 0, _, _, _ => []
  | _, [], _, _ => []
  | fuel + 1, c :: rest, p, atLS =>
    if atLS then
      match tryM (c :: rest) with
      | some len =>
        if len = 0 then anchoredScanGo tryM fuel rest (p + 1) (c == '\n')
        else
          (p, p + len) ::
            anchoredScanGo tryM fuel ((c :: rest).drop len) (p + len)
              (((c :: rest).take len).getLast? == some '\n')
      | none => anchoredScanGo tryM fuel rest (p + 1) (c == '\n')
    else anchoredScanGo tryM fuel rest (p + 1) (c == '\n')

def anchoredSpans (tryM : List Char → Option Nat) (text : String) : List (Nat × Nat) :=
  anchoredScanGo tryM (text.data.length + 1) text.data 0 true

/-- Per-pattern section list: each match start paired with the next match's
start (or the text length). -/
def sectionsOfGo (tlen : Nat) : List (Nat × Nat) → List (Nat × Nat)
  | [] => []
  | [m] => [(m.1, tlen)]
  | m :: m2 :: rest => (m.1, m2.1) :: sectionsOfGo tlen (m2 :: rest)

/-- Lexicographic insertion for Python's `sections.sort()` on pairs. -/
def insertPairLex (x : Nat × Nat) : List (Nat × Nat) → List (Nat × Nat)
  | [] => [x]
  | y :: ys =>
    if x.1 < y.1 ∨ (x.1 = y.1 ∧ x.2 ≤ y.2) then x :: y :: ys
    else y :: insertPairLex x ys

def sortPairsLex : List (Nat × Nat) → List (Nat × Nat)
  | [] => []
  | x :: xs => insertPairLex x (sortPairsLex xs)

/-- The overlap-merging fold of `_detect_sections`. -/
def mergeSections (l : List (Nat × Nat)) : List (Nat × Nat) :=
  l.foldl (fun acc se =>
    match acc.getLast? with
    | some lst => if se.1 ≤ lst.2 then acc.dropLast ++ [(lst.1, max se.2 lst.2)] else acc ++ [se]
    | none => [se]) []

/-- `SmartChunker._detect_sections(text)`. -/
def detect_sections (text : String) : List (Nat × Nat) :=
  let tlen := pyLen text
  let all :=
    sectionsOfGo tlen (anchoredSpans tryS1 text) ++
    sectionsOfGo tlen (anchoredSpans tryS2 text) ++
    sectionsOfGo tlen (anchoredSpans tryS3 text) ++
    sectionsOfGo tlen (anchoredSpans tryS4 text)
  mergeSections (sortPairsLex all)

/-! ### `_technical_chunking`, `_split_large_section` -/

/-- `SmartChunker._split_large_section(section_text)`. -/
def split_large_section (cfg : ChunkerConfig) (s : String) : List String :=
  if 1 < (paraSplit s).length then narrative_chunking cfg.target_size cfg.max_size s
  else split_by_sentences cfg.target_size s

/-- `SmartChunker._technical_chunking(text)` (a stripped section short
enough is emitted even when empty, as in the source). -/
def technical_chunking (cfg : ChunkerConfig) (text : String) : List String :=
  let secs := detect_sections text
  if secs = [] then narrative_chunking cfg.target_size cfg.max_size text
  else
    secs.flatMap (fun se =>
      let st := pyStrip (sliceStr text se.1 se.2)
      if pyLen st ≤ cfg.max_size then [st] else split_large_section cfg st)

/-! ### `_legal_chunking`, `_code_chunking`, `_pattern_based_chunking` -/

/-- `Xxx\s+\d+` (unanchored, case-sensitive literal). -/
def tryLitWsDigits (lit : List Char) (cs : List Char) : Option Nat :=
  if List.isPrefixOf lit cs then
    let r := cs.drop lit.length
    let w := r.takeWhile pyWs
    if w = [] then none
    else
      let d := (r.drop w.length).takeWhile Char.isDigit
      if d = [] then none else some (lit.length + w.length + d.length)
  else none

/-- `^\s*\([a-z]\)`. -/
def tryParenLetter (cs : List Char) : Option Nat :=
  let w := cs.takeWhile pyWs
  match cs.drop w.length with
  | '(' :: c :: ')' :: _ => if 'a' ≤ c ∧ c ≤ 'z' then some (w.length + 3) else none
  | _ => none

/-- `^\s*\d+\)`. -/
def tryDigitsParen (cs : List Char) : Option Nat :=
  let w := cs.takeWhile pyWs
  let r := cs.drop w.length
  let d := r.takeWhile Char.isDigit
  if d = [] then none
  else
    match r.drop d.length with
    | ')' :: _ => some (w.length + d.length + 1)
    | _ => none

/-- `^lit\s+\w+` (anchored literal, mandatory whitespace, word run). -/
def tryLitWsWord (lit : List Char) (cs : List Char) : Option Nat :=
  if List.isPrefixOf lit cs then
    let r := cs.drop lit.length
    let w := r.takeWhile pyWs
    if w = [] then none
    else
      let d := (r.drop w.length).takeWhile isWordCh
      if d = [] then none else some (lit.length + w.length + d.length)
  else none

/-- `^public\s+class`. -/
def tryPublicClass (cs : List Char) : Option Nat :=
  if List.isPrefixOf "public".data cs then
    let r := cs.drop 6
    let w := r.takeWhile pyWs
    if w = [] then none
    else if List.isPrefixOf "class".data (r.drop w.length) then some (6 + w.length + 5)
    else none
  else none

def insertNat (x : Nat) : List Nat → List Nat
  | [] => [x]
  | y :: ys => if x ≤ y then x :: y :: ys else y :: insertNat x ys

def sortNats : List Nat → List Nat
  | [] => []
  | x :: xs => insertNat x (sortNats xs)

/-- The slicing loop of `_pattern_based_chunking` over the sorted match
starts extended with the text length; the first region runs from offset 0
to the **second** boundary, as in the source (`for end_pos in matches[1:]`). -/
def pbcGo (cfg : ChunkerConfig) (text : String) : Nat → List Nat → List String
  | _, [] => []
  | start, e :: es =>
    let ct := pyStrip (sliceStr text start e)
    (if ct ≠ "" then
      (if pyLen ct ≤ cfg.max_size then [ct] else split_by_sentences cfg.target_size ct)
     else []) ++ pbcGo cfg text e es

/-- `SmartChunker._pattern_based_chunking(text, patterns)` given the
collected match starts of all patterns. -/
def pattern_based_chunking (cfg : ChunkerConfig) (text : String)
    (allStarts : List Nat) : List String :=
  if allStarts = [] then narrative_chunking cfg.target_size cfg.max_size text
  else
    let ms := sortNats allStarts ++ [pyLen text]
    pbcGo cfg text 0 (ms.drop 1)

/-- `SmartChunker._legal_chunking(text)`. -/
def legal_chunking (cfg : ChunkerConfig) (text : String) : List String :=
  let n := text.data.length + 1
  let starts :=
    (scanAllGo (tryLitWsDigits "Article".data) n text.data 0).map Prod.fst ++
    (scanAllGo (tryLitWsDigits "Section".data) n text.data 0).map Prod.fst ++
    (scanAllGo (tryLitWsDigits "Clause".data) n text.data 0).map Prod.fst ++
    (anchoredSpans tryParenLetter text).map Prod.fst ++
    (anchoredSpans tryDigitsParen text).map Prod.fst
  pattern_based_chunking cfg text starts

/-- `SmartChunker._code_chunking(text)`. -/
def code_chunking (cfg : ChunkerConfig) (text : String) : List String :=
  let starts :=
    (anchoredSpans (tryLitWsWord "def".data) text).map Prod.fst ++
    (anchoredSpans (tryLitWsWord "class".data) text).map Prod.fst ++
    (anchoredSpans (tryLitWsWord "function".data) text).map Prod.fst ++
    (anchoredSpans tryPublicClass text).map Prod.fst
  pattern_based_chunking cfg text starts

/-! ### `_semantic_chunking` -/

def topicIndicators : List String :=
  ["par ailleurs", "d'autre part", "en outre", "cependant",
   "néanmoins", "toutefois", "en revanche", "de plus",
   "furthermore", "however", "moreover", "nevertheless"]

/-- The sentence loop of `_semantic_chunking`. -/
def semGo (cfg : ChunkerConfig) : List String → String → List String
  | [], cur => if cur ≠ "" then [pyStrip cur] else []
  | s0 :: ss, cur =>
    let s := pyStrip s0
    if s = "" then semGo cfg ss cur
    else
      let tc := topicIndicators.any (fun k => pyInStr k (pyLower s))
      if (tc ∧ cur ≠ "" ∧ cfg.target_size / 2 < pyLen cur)
          ∨ (cfg.target_size < pyLen cur + pyLen s) then
        (if cur ≠ "" then [pyStrip cur] else []) ++ semGo cfg ss s
      else semGo cfg ss (if cur = "" then s else cur ++ " " ++ s)

/-- `SmartChunker._semantic_chunking(text)`. -/
def semantic_chunking (cfg : ChunkerConfig) (text : String) : List String :=
  semGo cfg (sentSplit text) ""

/-! ### `_simple_chunking` -/

/-- Python `text.rfind(' ', a, b)`. -/
def rfindSpace (cs : List Char) (a b : Nat) : Option Nat :=
  let seg := (cs.drop a).take (b - a)
  match seg.reverse.findIdx? (· == ' ') with
  | some k => some (a + (seg.length - 1 - k))
  | none => none

/-- Python `text.find(' ', a)`. -/
def findSpaceFrom (cs : List Char) (a : Nat) : Option Nat :=
  match (cs.drop a).findIdx? (· == ' ') with
  | some k => some (a + k)
  | none => none

/-- The `while` loop of `_simple_chunking`.  For `target_size = 0` the
Python loop does not terminate; the fuel (length + 1) covers every
terminating execution, i.e. every `target_size ≥ 1`. -/
def simpleGo (cfg : ChunkerConfig) (cs : List Char) : Nat → Nat → List String
  | 0, _ => []
  | fuel + 1, start =>
    if start < cs.length then
      let e0 := min (start + cfg.target_size) cs.length
      let e1 :=
        if e0 < cs.length ∧ ¬(pyWs (cs.getD e0 ' ') = true) then
          match rfindSpace cs start e0 with
          | some ls =>
            if start < ls then ls
            else
              match findSpaceFrom cs e0 with
              | some ns => if ns - start ≤ cfg.max_size then ns else e0
              | none => e0
          | none =>
            match findSpaceFrom cs e0 with
            | some ns => if ns - start ≤ cfg.max_size then ns else e0
            | none => e0
        else e0
      let chunk := pyStrip (sliceStr ⟨cs⟩ start e1)
      (if chunk ≠ "" then [chunk] else []) ++
        (if cs.length ≤ e1 then [] else simpleGo cfg cs fuel e1)
    else []

/-- `SmartChunker._simple_chunking(text)`. -/
def simple_chunking (cfg : ChunkerConfig) (text : String) : List String :=
  simpleGo cfg text.data (text.data.length + 1) 0

/-! ### `_detect_document_type`, `_smart_chunking`, `_finalize_chunks`,
`create_chunks` -/

/-- `SmartChunker._detect_document_type(text)`. -/
def detect_document_type (text : String) : String :=
  let sample := pyLower ⟨text.data.take 2000⟩
  if ["article", "section", "clause", "whereas"].any (fun p => pyInStr p sample) then "legal"
  else if ["function", "class", "import", "def", "var"].any (fun p => pyInStr p sample) then "code"
  else if 3 < countNumberedLines sample then "technical"
  else "narrative"

/-- `SmartChunker._smart_chunking(text, document_type)`. -/
def smart_chunking (cfg : ChunkerConfig) (text dt : String) : List String :=
  let tables := detect_table_structures text
  if tables ≠ [] ∧ cfg.table_strategy = "preserve_structure" then
    table_aware_chunking cfg text tables
  else if dt = "legal" then legal_chunking cfg text
  else if dt = "technical" then technical_chunking cfg text
  else if dt = "code" then code_chunking cfg text
  else narrative_chunking cfg.target_size cfg.max_size text

/-- The chunk record built by `_finalize_chunks`.  `length` and `end_pos`
are the length of the chunk text **before** stripping; `text` is the
stripped text; `start_pos` is the constant 0 of the source
(`# Sera recalculé si nécessaire`). -/
structure Chunk where
  index : Nat
  text : String
  length : Nat
  start_pos : Nat
  end_pos : Nat
  chunk_type : String
  quality_score : ℚ
deriving DecidableEq, Repr

/-- `SmartChunker._finalize_chunks(chunks)`. -/
def finalize_chunks (target : Nat) (chunks : List String) : List Chunk :=
  chunks.enum.map (fun p =>
    { index := p.1
      text := pyStrip p.2
      length := pyLen p.2
      start_pos := 0
      end_pos := pyLen p.2
      chunk_type := classify_chunk p.2
      quality_score := calculate_quality_score target p.2 })

/-- `SmartChunker.create_chunks(text, document_type)`. -/
def create_chunks (cfg : ChunkerConfig) (text : String)
    (document_type : String := "auto") : List Chunk :=
  if text = "" ∨ pyStrip text = "" then []
  else
    let dt := if document_type = "auto" then detect_document_type text else document_type
    let chunks :=
      if cfg.strategy = "smart" then
        let tables := detect_table_structures text
        if tables ≠ [] ∧ cfg.table_strategy = "preserve_structure" then
          table_aware_chunking cfg text tables
        else smart_chunking cfg text dt
      else if cfg.strategy = "semantic" then semantic_chunking cfg text
      else simple_chunking cfg text
    finalize_chunks cfg.target_size (add_intelligent_overlap cfg.overlap_size chunks)

/-! ## Supporting lemmas -/

theorem strEq_of_data {a b : String} (h : a.data = b.data) : a = b := by
  cases a; cases b; simp_all

theorem pyLen_append (a b : String) : pyLen (a ++ b) = pyLen a + pyLen b := by
  simp [pyLen, String.data_append]

theorem stripList_length_le (l : List Char) : (stripList l).length ≤ l.length := by
  unfold stripList
  calc ((l.dropWhile pyWs).reverse.dropWhile pyWs).reverse.length
      = ((l.dropWhile pyWs).reverse.dropWhile pyWs).length := List.length_reverse _
    _ ≤ (l.dropWhile pyWs).reverse.length := (List.dropWhile_sublist _).length_le
    _ = (l.dropWhile pyWs).length := List.length_reverse _
    _ ≤ l.length := (List.dropWhile_sublist _).length_le

theorem pyLen_strip_le (s : String) : pyLen (pyStrip s) ≤ pyLen s :=
  stripList_length_le s.data

/-! ## C7: empty or whitespace-only input -/

/-- **C7.**  For every input text that is empty or consists only of
whitespace, and for every `document_type` hint and configuration,
`create_chunks` returns the empty chunk sequence (the guard
`if not text or not text.strip(): return []` fires; no later code runs, so
no error can be raised). -/
theorem c7_empty_input (cfg : ChunkerConfig) (text dt : String)
    (h : pyStrip text = "") : create_chunks cfg text dt = [] := by
  unfold create_chunks
  simp [h]

/-- Witness for C7 at the whitespace-only input `"  \t\n "`. -/
theorem c7_empty_input_witness :
    pyStrip "  \t\n " = "" ∧ create_chunks defaultConfig "  \t\n " "auto" = [] :=
  ⟨by decide, c7_empty_input defaultConfig "  \t\n " "auto" (by decide)⟩

/-! ## C8: configuration validation -/

/-- **C8 (divergence with the claim).**  The constructor performs no
validation: a configuration with `overlap_size ≥ target_size` (and
`max_size < target_size`) is accepted and stored verbatim — nothing is
rejected at construction time.  `SmartChunker_init` is a total function
because `SmartChunker.__init__` only assigns attributes. -/
theorem c8_no_construction_validation :
    (SmartChunker_init 500 400 600 "smart" "preserve_structure" 10 true true false).target_size = 500
    ∧ (SmartChunker_init 500 400 600 "smart" "preserve_structure" 10 true true false).max_size = 400
    ∧ (SmartChunker_init 500 400 600 "smart" "preserve_structure" 10 true true false).overlap_size = 600
    ∧ ¬ ((SmartChunker_init 500 400 600 "smart" "preserve_structure" 10 true true false).target_size
        ≤ (SmartChunker_init 500 400 600 "smart" "preserve_structure" 10 true true false).max_size)
    ∧ ¬ ((SmartChunker_init 500 400 600 "smart" "preserve_structure" 10 true true false).overlap_size
        < (SmartChunker_init 500 400 600 "smart" "preserve_structure" 10 true true false).target_size) := by
  refine ⟨rfl, rfl, rfl, by decide, by decide⟩

/-! ## C9: determinism -/

/-- **C9.**  `create_chunks` is deterministic: two chunkers constructed with
identical configuration return identical chunk sequences on identical
arguments.  The shallow embedding is a pure function — faithfully so, since
the source reads no randomness, clock, or external state on any path. -/
theorem c9_deterministic (cfg₁ cfg₂ : ChunkerConfig) (text dt : String)
    (h : cfg₁ = cfg₂) : create_chunks cfg₁ text dt = create_chunks cfg₂ text dt := by
  rw [h]

/-- Witness for C9 at a concrete configuration and input. -/
theorem c9_deterministic_witness :
    create_chunks defaultConfig "Hello world. Second sentence." "auto"
      = create_chunks defaultConfig "Hello world. Second sentence." "auto" :=
  c9_deterministic defaultConfig defaultConfig "Hello world. Second sentence." "auto" rfl

/-! ## C6: quality score -/

/-- The quality-score computation as the claim words it: start at 1.0,
subtract 0.3 when the length is below 30% or above 200% of `target_size`,
add 0.1 for terminal punctuation, subtract 0.2 for a lowercase start, then
clamp to `[0, 1]`. -/
def qualityFormulaC6 (target : Nat) (s : String) : ℚ :=
  max 0 (min 1 ((1 : ℚ)
    - (if (pyLen s : ℚ) < 3/10 * (target : ℚ) ∨ 2 * (target : ℚ) < (pyLen s : ℚ)
       then 3/10 else 0)
    + (if endsTerminalB s then 1/10 else 0)
    - (if startsLowerB s then 1/5 else 0)))

theorem quality_score_bounds (target : Nat) (s : String) :
    0 ≤ calculate_quality_score target s ∧ calculate_quality_score target s ≤ 1 := by
  unfold calculate_quality_score
  exact ⟨le_max_left 0 _, max_le (by norm_num) (min_le_left _ _)⟩

theorem quality_score_formula (target : Nat) (s : String) (h : 0 < target) :
    calculate_quality_score target s = qualityFormulaC6 target s := by
  have ht : (0 : ℚ) < (target : ℚ) := by exact_mod_cast h
  unfold calculate_quality_score qualityFormulaC6
  simp only [div_lt_iff₀ ht, lt_div_iff₀ ht]
  split_ifs <;> ring_nf

/-- Every chunk of `create_chunks` is produced by `_finalize_chunks`. -/
theorem exists_of_mem_finalize {target : Nat} {l : List String} {c : Chunk}
    (h : c ∈ finalize_chunks target l) :
    ∃ i s, c = { index := i, text := pyStrip s, length := pyLen s, start_pos := 0,
                 end_pos := pyLen s, chunk_type := classify_chunk s,
                 quality_score := calculate_quality_score target s } := by
  unfold finalize_chunks at h
  obtain ⟨⟨i, s⟩, _, rfl⟩ := List.mem_map.1 h
  exact ⟨i, s, rfl⟩

theorem create_chunks_shape (cfg : ChunkerConfig) (text dt : String) :
    create_chunks cfg text dt = []
    ∨ ∃ l, create_chunks cfg text dt = finalize_chunks cfg.target_size l := by
  unfold create_chunks
  by_cases hg : text = "" ∨ pyStrip text = ""
  · left; simp [hg]
  · right; rw [if_neg hg]; exact ⟨_, rfl⟩

/-- **C6.**  Every chunk returned by `create_chunks` has
`quality_score ∈ [0, 1]`, and (for `0 < target_size`, where the Python
division is defined) the score is exactly the claim's start-at-1.0 /
subtract-0.3 / add-0.1 / subtract-0.2 / clamp computation. -/
theorem c6_quality_score :
    (∀ (cfg : ChunkerConfig) (text dt : String) (c : Chunk),
        c ∈ create_chunks cfg text dt →
          0 ≤ c.quality_score ∧ c.quality_score ≤ 1)
    ∧ (∀ (target : Nat) (s : String), 0 < target →
        calculate_quality_score target s = qualityFormulaC6 target s) := by
  constructor
  · intro cfg text dt c hc
    rcases create_chunks_shape cfg text dt with hsh | ⟨l, hsh⟩
    · rw [hsh] at hc; cases hc
    · rw [hsh] at hc
      obtain ⟨i, s, rfl⟩ := exists_of_mem_finalize hc
      exact quality_score_bounds cfg.target_size s
  · exact quality_score_formula

/-- The single chunk of the run on `" a|b "` (quality left symbolic so the
record is definitionally the one `create_chunks` builds). -/
def exampleChunkPipe : Chunk :=
  { index := 0, text := "a|b", length := 5, start_pos := 0, end_pos := 5,
    chunk_type := "fragment", quality_score := calculate_quality_score 500 " a|b " }

theorem create_chunks_pipe_eval :
    create_chunks defaultConfig " a|b " "auto" = [exampleChunkPipe] := rfl

theorem mem_exampleChunkPipe :
    exampleChunkPipe ∈ create_chunks defaultConfig " a|b " "auto" := by
  rw [create_chunks_pipe_eval]; exact List.mem_singleton.mpr rfl

/-- Witness for C6: the bound instance at the concrete chunk of the
`" a|b "` run, and the formula instance at `target_size = 500`. -/
theorem c6_quality_score_witness :
    (0 ≤ exampleChunkPipe.quality_score ∧ exampleChunkPipe.quality_score ≤ 1)
    ∧ calculate_quality_score 500 "Hello world. Second sentence."
        = qualityFormulaC6 500 "Hello world. Second sentence." :=
  ⟨c6_quality_score.1 defaultConfig " a|b " "auto" exampleChunkPipe mem_exampleChunkPipe,
   c6_quality_score.2 500 "Hello world. Second sentence." (by decide)⟩

/-! ## C10: start_pos / end_pos / length -/

/-- **C10.**  For every chunk returned by `create_chunks`, `start_pos = 0`
and `end_pos = length`, the length of the chunk text before stripping —
never offsets into the source document — and the stored (stripped) `text`
can be strictly shorter than `length`, witnessed by the run on `" a|b "`
whose single chunk has `text = "a|b"` (length 3) but `length = end_pos = 5`. -/
theorem c10_positions :
    (∀ (cfg : ChunkerConfig) (text dt : String) (c : Chunk),
        c ∈ create_chunks cfg text dt →
          c.start_pos = 0 ∧ c.end_pos = c.length ∧ pyLen c.text ≤ c.length)
    ∧ (create_chunks defaultConfig " a|b " "auto").map
        (fun c => (c.start_pos, c.end_pos, c.length, pyLen c.text)) = [(0, 5, 5, 3)] := by
  constructor
  · intro cfg text dt c hc
    rcases create_chunks_shape cfg text dt with hsh | ⟨l, hsh⟩
    · rw [hsh] at hc; cases hc
    · rw [hsh] at hc
      obtain ⟨i, s, rfl⟩ := exists_of_mem_finalize hc
      exact ⟨rfl, rfl, pyLen_strip_le s⟩
  · decide

/-- Witness for C10 at the concrete chunk of the `" a|b "` run. -/
theorem c10_positions_witness :
    exampleChunkPipe.start_pos = 0 ∧ exampleChunkPipe.end_pos = exampleChunkPipe.length
    ∧ pyLen exampleChunkPipe.text ≤ exampleChunkPipe.length :=
  c10_positions.1 defaultConfig " a|b " "auto" exampleChunkPipe mem_exampleChunkPipe

/-! ## C1: the overlap composer -/

theorem pyLen_empty : pyLen "" = 0 := rfl

theorem one_le_pyLen_of_ne {s : String} (h : s ≠ "") : 1 ≤ pyLen s := by
  cases hq : s.data with
  | nil => exact absurd (strEq_of_data (by simp [hq])) h
  | cons a t => simp [pyLen, hq]

theorem eq_empty_of_pyLen_zero {s : String} (h : pyLen s = 0) : s = "" := by
  cases hq : s.data with
  | nil => exact strEq_of_data (by simp [hq])
  | cons a t => unfold pyLen at h; rw [hq] at h; simp at h

theorem pyLen_accum (t ov : String) :
    pyLen (if ov = "" then t else t ++ ". " ++ ov) ≤ pyLen t + 2 + pyLen ov := by
  by_cases he : ov = ""
  · rw [if_pos he]; omega
  · rw [if_neg he, pyLen_append, pyLen_append]
    have : pyLen ". " = 2 := rfl
    omega

theorem extractLoop_le (m : Nat) :
    ∀ (l : List String) (ov : String), pyLen ov ≤ m + 1 →
      pyLen (extractLoop m l ov) ≤ m + 1 := by
  intro l
  induction l with
  | nil => intro ov h; simpa [extractLoop] using h
  | cons s rest ih =>
    intro ov h
    unfold extractLoop
    by_cases h0 : pyStrip s = ""
    · rw [if_pos h0]; exact ih ov h
    · rw [if_neg h0]
      by_cases hg : pyLen ov + pyLen (pyStrip s) + 1 ≤ m
      · rw [if_pos hg]
        exact ih _ (le_trans (pyLen_accum _ _) (by omega))
      · rw [if_neg hg]; exact h

theorem extractLoop_zero : ∀ l : List String, extractLoop 0 l "" = "" := by
  intro l
  induction l with
  | nil => rfl
  | cons s rest ih =>
    unfold extractLoop
    by_cases h0 : pyStrip s = ""
    · rw [if_pos h0]; exact ih
    · rw [if_neg h0, if_neg (by omega)]

theorem extract_overlap_le (m : Nat) (text : String) (h : m < pyLen text) :
    pyLen (extract_meaningful_overlap m text) ≤ m + 1 := by
  unfold extract_meaningful_overlap
  rw [if_neg (by omega)]
  exact le_trans (pyLen_strip_le _) (extractLoop_le m _ "" (by simp [pyLen_empty]))

theorem extract_overlap_whole (m : Nat) (text : String) (h : pyLen text ≤ m) :
    extract_meaningful_overlap m text = text := by
  unfold extract_meaningful_overlap
  rw [if_pos h]

theorem zipWith_getD (f : String → String → String) :
    ∀ (as bs : List String) (i : Nat), i < as.length → i < bs.length →
      (List.zipWith f as bs).getD i "" = f (as.getD i "") (bs.getD i "") := by
  intro as
  induction as with
  | nil => intro bs i h; simp at h
  | cons a as ih =>
    intro bs i h1 h2
    cases bs with
    | nil => simp at h2
    | cons b bs =>
      cases i with
      | zero => rfl
      | succ i =>
        simp only [List.zipWith_cons_cons, List.getD_cons_succ]
        exact ih bs i (by simpa using h1) (by simpa using h2)

/-- **C1 (amended).**  The overlap composer never modifies the first chunk
and preserves the chunk count.  For `i > 0` the string it prepends (with the
two-character literal `\n` separator) is `extract_meaningful_overlap` of
chunk `i-1`: when chunk `i-1` fits inside `overlap_size` it is prepended
whole; otherwise the overlap is rebuilt from trailing sentence fragments
joined by `". "`, and its length is bounded by `overlap_size + 1` — one more
than the claim's bound, because the greedy guard accounts one separator
character where two are appended.  When the extraction is empty, chunk `i`
is unchanged. -/
theorem c1_overlap_amended (ov : Nat) (chunks : List String) :
    (add_intelligent_overlap ov chunks).length = chunks.length
    ∧ (add_intelligent_overlap ov chunks).head? = chunks.head?
    ∧ ∀ i, i + 1 < chunks.length →
        (pyLen (chunks.getD i "") ≤ ov →
          extract_meaningful_overlap ov (chunks.getD i "") = chunks.getD i "")
        ∧ (ov < pyLen (chunks.getD i "") →
          pyLen (extract_meaningful_overlap ov (chunks.getD i "")) ≤ ov + 1)
        ∧ (extract_meaningful_overlap ov (chunks.getD i "") = "" →
          (add_intelligent_overlap ov chunks).getD (i+1) "" = chunks.getD (i+1) "")
        ∧ (extract_meaningful_overlap ov (chunks.getD i "") ≠ "" →
          (add_intelligent_overlap ov chunks).getD (i+1) ""
            = extract_meaningful_overlap ov (chunks.getD i "") ++ "\\n" ++ chunks.getD (i+1) "") := by
  by_cases hg : chunks.length ≤ 1 || ov == 0
  · have hres : add_intelligent_overlap ov chunks = chunks := by
      unfold add_intelligent_overlap; rw [if_pos hg]
    refine ⟨by rw [hres], by rw [hres], ?_⟩
    intro i hi
    rcases Bool.or_eq_true_iff.1 hg with h1 | h0
    · exact absurd hi (by simp at h1; omega)
    · have hov : ov = 0 := by simpa using h0
      subst hov
      have hext : extract_meaningful_overlap 0 (chunks.getD i "") = "" := by
        by_cases hp : pyLen (chunks.getD i "") ≤ 0
        · rw [extract_overlap_whole 0 _ hp]
          exact eq_empty_of_pyLen_zero (by omega)
        · unfold extract_meaningful_overlap
          rw [if_neg hp, extractLoop_zero]
          rfl
      exact ⟨fun hp => extract_overlap_whole 0 _ hp,
             fun _ => by rw [hext]; simp [pyLen_empty],
             fun _ => by rw [hres],
             fun hne => absurd hext hne⟩
  · have hlen2 : 2 ≤ chunks.length := by
      by_contra hc
      exact absurd hg (by simp; omega)
    obtain ⟨c0, rest, rfl⟩ : ∃ c0 rest, chunks = c0 :: rest := by
      cases chunks with
      | nil => simp at hlen2
      | cons a l => exact ⟨a, l, rfl⟩
    have hres : add_intelligent_overlap ov (c0 :: rest)
        = c0 :: List.zipWith (fun prev cur =>
            let o := extract_meaningful_overlap ov prev
            if o ≠ "" then o ++ "\\n" ++ cur else cur) (c0 :: rest) rest := by
      unfold add_intelligent_overlap
      rw [if_neg hg]
    refine ⟨?_, ?_, ?_⟩
    · rw [hres]
      simp only [List.length_cons, List.length_zipWith, List.length_cons]
      omega
    · rw [hres]; rfl
    · intro i hi
      have hi' : i < rest.length := by simpa using hi
      have hget : (add_intelligent_overlap ov (c0 :: rest)).getD (i+1) ""
          = (fun prev cur =>
              let o := extract_meaningful_overlap ov prev
              if o ≠ "" then o ++ "\\n" ++ cur else cur)
            ((c0 :: rest).getD i "") (rest.getD i "") := by
        rw [hres]
        simp only [List.getD_cons_succ]
        exact zipWith_getD _ (c0 :: rest) rest i (by simp; omega) hi'
      have htail : rest.getD i "" = (c0 :: rest).getD (i+1) "" := rfl
      refine ⟨fun hp => extract_overlap_whole ov _ hp,
              fun hp => extract_overlap_le ov _ hp, ?_, ?_⟩
      · intro he
        rw [hget, ← htail]
        simp only [he, ne_eq, not_true_eq_false, if_false]
      · intro hne
        rw [hget, ← htail]
        simp only [ne_eq, hne, not_false_eq_true, if_true]

/-- **C1 (counterexample).**  At `overlap_size = 5` and chunks
`["Hello. xy! ab", "next"]` the composer prepends `"xy. ab"`, which has
length 6 > 5 (the claim bounds it by `overlap_size`), is not a suffix of the
previous chunk (whose text ends `"xy! ab"`), and ends in the partial
fragment `"ab"` — refuting the claim's "suffix of whole sentences of total
length at most `overlap_size`, else unchanged". -/
theorem c1_overlap_counterexample :
    add_intelligent_overlap 5 ["Hello. xy! ab", "next"]
      = ["Hello. xy! ab", "xy. ab\\nnext"]
    ∧ extract_meaningful_overlap 5 "Hello. xy! ab" = "xy. ab"
    ∧ 5 < pyLen "xy. ab"
    ∧ List.isPrefixOf "xy. ab".data.reverse "Hello. xy! ab".data.reverse = false := by
  refine ⟨by decide, by decide, by decide, by decide⟩

/-- Witness for C1 at `overlap_size = 5`, chunks `["Hello. xy! ab", "next"]`,
boundary `i = 0`. -/
theorem c1_overlap_amended_witness :
    (add_intelligent_overlap 5 ["Hello. xy! ab", "next"]).getD 1 ""
      = extract_meaningful_overlap 5 "Hello. xy! ab" ++ "\\n" ++ "next"
    ∧ pyLen (extract_meaningful_overlap 5 "Hello. xy! ab") ≤ 6 := by
  have h := (c1_overlap_amended 5 ["Hello. xy! ab", "next"]).2.2 0 (by decide)
  exact ⟨h.2.2.2 (by decide), h.2.1 (by decide)⟩

/-! ## C3: chunk-type classification -/

/-- Matches of the regex `\d+\.` — a decimal digit run followed by a literal
dot, the numbered-list marker the claim (and the spec) speak of.  The
source's pattern `r'\\d+\\.'` does **not** match these (see
`countEscDMark`); this counter states what the claim expects. -/
def countNumMarkGo : List Char → Bool → Nat
  | [], _ => 0
  | c :: cs, false => countNumMarkGo cs c.isDigit
  | c :: cs, true =>
    if c.isDigit then countNumMarkGo cs true
    else if c = '.' then 1 + countNumMarkGo cs false
    else countNumMarkGo cs false

/-- `len(re.findall(r'\d+\.', s))`, the claim's reading of "numbered-list
markers". -/
def numberedMarkerCount (s : String) : Nat := countNumMarkGo s.data false

/-- The classifier chain as the claim must be amended: at least **5** pipes
(not 4) for the table family; the "list" guard counts matches of the
mis-escaped literal pattern `\\d+\\.` (backslash, letters `d`, backslash,
any non-newline character), not decimal numbered markers; then the
case-insensitive `Section|Article|Chapter` prefix; then at least 5
sentence breaks (`". "` occurrences); else fragment. -/
def chunkTypeAmendedC3 (text : String) : String :=
  if 5 ≤ pyCountCh text '|' then
    if pyInStr "TABLEAU" text then "azure_table"
    else if mdSepSearchB text then "markdown_table"
    else "formatted_table"
  else if 3 ≤ countEscDMark text then "list"
  else if List.isPrefixOf "section".data (pyLower text).data
      || List.isPrefixOf "article".data (pyLower text).data
      || List.isPrefixOf "chapter".data (pyLower text).data then "section_header"
  else if 5 ≤ (dotSplit text).length - 1 then "paragraph"
  else "fragment"

theorem dotSplitGo_length_pos :
    ∀ (cs : List Char) (pend : Bool) (acc : List Char),
      1 ≤ (dotSplitGo cs pend acc).length := by
  intro cs
  induction cs with
  | nil => intro pend acc; cases pend <;> simp [dotSplitGo]
  | cons c cs ih =>
    intro pend acc
    cases pend with
    | false =>
      unfold dotSplitGo
      by_cases h : c = '.'
      · rw [if_pos h]; exact ih true acc
      · rw [if_neg h]; exact ih false (c :: acc)
    | true =>
      unfold dotSplitGo
      by_cases h : c = ' '
      · rw [if_pos h]; simp
      · rw [if_neg h]
        by_cases h2 : c = '.'
        · rw [if_pos h2]; exact ih true ('.' :: acc)
        · rw [if_neg h2]; exact ih false (c :: '.' :: acc)

theorem dotSplit_length_pos (s : String) : 1 ≤ (dotSplit s).length := by
  unfold dotSplit
  rw [List.length_map]
  exact dotSplitGo_length_pos s.data false []

/-- **C3 (amended).**  `_classify_chunk` equals the amended decision chain
`chunkTypeAmendedC3` on every input. -/
theorem c3_classify_amended (text : String) :
    classify_chunk text = chunkTypeAmendedC3 text := by
  unfold classify_chunk chunkTypeAmendedC3
  by_cases hc : 5 ≤ pyCountCh text '|'
  · have hb : (pyHasCh text '|' && decide (pyCountCh text '|' > 4)) = true := by
      simp only [Bool.and_eq_true, decide_eq_true_eq]
      refine ⟨?_, by omega⟩
      exact List.elem_eq_true_of_mem (List.count_pos_iff.mp (by unfold pyCountCh at hc; omega))
    rw [if_pos hb, if_pos hc]
  · have hb : ¬((pyHasCh text '|' && decide (pyCountCh text '|' > 4)) = true) := by
      simp only [Bool.and_eq_true, decide_eq_true_eq]
      rintro ⟨-, h⟩; omega
    rw [if_neg hb, if_neg hc]
    by_cases hl : 3 ≤ countEscDMark text
    · rw [if_pos (show countEscDMark text > 2 by omega), if_pos hl]
    · rw [if_neg (show ¬(countEscDMark text > 2) by omega), if_neg hl]
      by_cases hs : (List.isPrefixOf "section".data (pyLower text).data
          || List.isPrefixOf "article".data (pyLower text).data
          || List.isPrefixOf "chapter".data (pyLower text).data) = true
      · rw [if_pos hs, if_pos hs]
      · rw [if_neg hs, if_neg hs]
        have hpos := dotSplit_length_pos text
        by_cases hp : 5 < (dotSplit text).length
        · rw [if_pos hp, if_pos (by omega)]
        · rw [if_neg hp, if_neg (by omega)]

/-- **C3 (counterexample).**  The text `"|--|--|--| 1. a 2. b 3. c"` has exactly
4 pipe characters (the claim's "at least 4 ⇒ table family" threshold) and a
markdown separator sub-pattern, and it carries 3 decimal numbered-list
markers (the claim's fallback "at least 3 ⇒ list"); yet the code counts the
mis-escaped pattern (0 matches) and classifies the chunk as `"fragment"`. -/
theorem c3_classify_counterexample :
    classify_chunk "|--|--|--| 1. a 2. b 3. c" = "fragment"
    ∧ pyCountCh "|--|--|--| 1. a 2. b 3. c" '|' = 4
    ∧ mdSepSearchB "|--|--|--| 1. a 2. b 3. c" = true
    ∧ numberedMarkerCount "|--|--|--| 1. a 2. b 3. c" = 3
    ∧ countEscDMark "|--|--|--| 1. a 2. b 3. c" = 0 := by
  refine ⟨by decide, by decide, by decide, by decide, by decide⟩

/-! ## C4: the narrative segmenter -/

/-- One step of the narrative packing loop, as the amended claim words it:
append to the buffer (joined with the four-character literal `\n\n` escape)
while `len(buffer) + len(paragraph) + 2 ≤ target_size`; on overflow with a
non-empty buffer, flush the stripped buffer and restart from the paragraph
**even when it exceeds `max_size`**; on overflow with an empty buffer,
sentence-split the paragraph when it exceeds `max_size`, else emit it
alone. -/
def narrStepC4 (target maxSize : Nat) (st : List String × String) (p : String) :
    List String × String :=
  if pyLen st.2 + pyLen p + 2 ≤ target then
    (st.1, if st.2 = "" then p else st.2 ++ "\\n\\n" ++ p)
  else if st.2 ≠ "" then (st.1 ++ [pyStrip st.2], p)
  else if maxSize < pyLen p then (st.1 ++ split_by_sentences target p, "")
  else (st.1 ++ [p], "")

/-- The narrative segmenter per the amended claim: split into paragraphs on
the blank-line pattern, strip and drop empties, fold the packing step over
them, then flush a non-empty final buffer (stripped). -/
def narrativeAmendedC4 (target maxSize : Nat) (text : String) : List String :=
  let paragraphs := ((paraSplit text).map pyStrip).filter (· ≠ "")
  let st := paragraphs.foldl (narrStepC4 target maxSize) ([], "")
  st.1 ++ (if st.2 ≠ "" then [pyStrip st.2] else [])

theorem narrStep_fit {target maxSize : Nat} {out : List String} {buf p : String}
    (h : pyLen buf + pyLen p + 2 ≤ target) :
    narrStepC4 target maxSize (out, buf) p
      = (out, if buf = "" then p else buf ++ "\\n\\n" ++ p) := by
  unfold narrStepC4
  dsimp only
  rw [if_pos h]

theorem narrStep_flush {target maxSize : Nat} {out : List String} {buf p : String}
    (h : target < pyLen buf + pyLen p + 2) (hb : buf ≠ "") :
    narrStepC4 target maxSize (out, buf) p = (out ++ [pyStrip buf], p) := by
  unfold narrStepC4
  dsimp only
  rw [if_neg (by omega)]
  simp only [ne_eq, hb, not_false_eq_true, if_true]

theorem narrStep_big {target maxSize : Nat} {out : List String} {p : String}
    (h : target < pyLen "" + pyLen p + 2) (hm : maxSize < pyLen p) :
    narrStepC4 target maxSize (out, "") p = (out ++ split_by_sentences target p, "") := by
  unfold narrStepC4
  dsimp only
  rw [if_neg (by omega)]
  simp only [ne_eq, not_true_eq_false, if_false]
  rw [if_pos hm]

theorem narrStep_lone {target maxSize : Nat} {out : List String} {p : String}
    (h : target < pyLen "" + pyLen p + 2) (hm : ¬ maxSize < pyLen p) :
    narrStepC4 target maxSize (out, "") p = (out ++ [p], "") := by
  unfold narrStepC4
  dsimp only
  rw [if_neg (by omega)]
  simp only [ne_eq, not_true_eq_false, if_false]
  rw [if_neg hm]

theorem narrLoop_foldl (target maxSize : Nat) :
    ∀ (ps : List String) (out : List String) (buf : String),
      out ++ narrLoop target maxSize ps buf
        = (ps.foldl (narrStepC4 target maxSize) (out, buf)).1
          ++ (if (ps.foldl (narrStepC4 target maxSize) (out, buf)).2 ≠ "" then
              [pyStrip (ps.foldl (narrStepC4 target maxSize) (out, buf)).2] else []) := by
  intro ps
  induction ps with
  | nil =>
    intro out buf
    simp only [List.foldl_nil]
    unfold narrLoop
    by_cases h : buf = ""
    · simp [h]
    · simp [h]
  | cons p ps ih =>
    intro out buf
    simp only [List.foldl_cons]
    by_cases h1 : target < pyLen buf + pyLen p + 2
    · by_cases h2 : buf = ""
      · subst h2
        by_cases h3 : maxSize < pyLen p
        · rw [narrStep_big h1 h3]
          have hL : narrLoop target maxSize (p :: ps) ""
              = split_by_sentences target p ++ narrLoop target maxSize ps "" := by
            rw [narrLoop]
            rw [if_pos h1]
            simp only [ne_eq, not_true_eq_false, if_false]
            rw [if_pos h3]
          rw [hL, ← List.append_assoc]
          exact ih (out ++ split_by_sentences target p) ""
        · rw [narrStep_lone h1 h3]
          have hL : narrLoop target maxSize (p :: ps) ""
              = p :: narrLoop target maxSize ps "" := by
            rw [narrLoop]
            rw [if_pos h1]
            simp only [ne_eq, not_true_eq_false, if_false]
            rw [if_neg h3]
          rw [hL]
          have : out ++ p :: narrLoop target maxSize ps ""
              = (out ++ [p]) ++ narrLoop target maxSize ps "" := by simp
          rw [this]
          exact ih (out ++ [p]) ""
      · rw [narrStep_flush h1 h2]
        have hL : narrLoop target maxSize (p :: ps) buf
            = pyStrip buf :: narrLoop target maxSize ps p := by
          rw [narrLoop]
          rw [if_pos h1]
          simp only [ne_eq, h2, not_false_eq_true, if_true]
        rw [hL]
        have : out ++ pyStrip buf :: narrLoop target maxSize ps p
            = (out ++ [pyStrip buf]) ++ narrLoop target maxSize ps p := by simp
        rw [this]
        exact ih (out ++ [pyStrip buf]) p
    · rw [narrStep_fit (by omega)]
      have hL : narrLoop target maxSize (p :: ps) buf
          = narrLoop target maxSize ps (if buf = "" then p else buf ++ "\\n\\n" ++ p) := by
        rw [narrLoop]
        rw [if_neg h1]
      rw [hL]
      exact ih out _

/-- **C4 (amended).**  `_narrative_chunking` equals the amended description
`narrativeAmendedC4` on every input and configuration. -/
theorem c4_narrative_amended (target maxSize : Nat) (text : String) :
    narrative_chunking target maxSize text = narrativeAmendedC4 target maxSize text := by
  unfold narrative_chunking narrativeAmendedC4
  have h := narrLoop_foldl target maxSize
    (((paraSplit text).map pyStrip).filter (· ≠ "")) [] ""
  simpa using h

/-- **C4 (counterexample).**  With `target_size = 9`, `max_size = 12`:
(1) on `"abcd\n\nefgh"` the two paragraphs satisfy the claim's packing guard
`len(buffer) + len(paragraph) = 8 ≤ 9`, yet the code (whose guard adds 2)
flushes and returns two chunks; (2) on `"abcd\n\nAaaa bb. Cc ddddddd."` the
second paragraph exceeds `max_size` (20 > 12) but is emitted **whole** —
never sentence-split — because the buffer was non-empty when it arrived. -/
theorem c4_narrative_counterexample :
    narrative_chunking 9 12 "abcd\n\nefgh" = ["abcd", "efgh"]
    ∧ pyLen "abcd" + pyLen "efgh" ≤ 9
    ∧ narrative_chunking 9 12 "abcd\n\nAaaa bb. Cc ddddddd."
        = ["abcd", "Aaaa bb. Cc ddddddd."]
    ∧ 12 < pyLen "Aaaa bb. Cc ddddddd." := by
  refine ⟨by decide, by decide, by decide, by decide⟩

/-- Witness is not required for C4's amended theorem (no hypotheses), but the
equality is exercised at a concrete input. -/
theorem c4_narrative_amended_witness :
    narrative_chunking 9 12 "abcd\n\nefgh" = narrativeAmendedC4 9 12 "abcd\n\nefgh" :=
  c4_narrative_amended 9 12 "abcd\n\nefgh"

/-! ## C5: column estimation -/

/-- The claim's formula: for each separator, the average of its occurrence
counts over **all** non-empty lines, rounded down; the maximum over the four
separators (0 when there are no non-empty lines). -/
def estColsClaimC5 (content : String) : Nat :=
  let lines := ((splitCh '\n' content).map pyStrip).filter (· ≠ "")
  if lines = [] then 0
  else
    ([ '|', ',', '\t', ';' ].map (fun sep =>
      ((lines.map (fun l => pyCountCh l sep)).sum) / lines.length)).foldr max 0

/-- The amended formula: for each separator, the average of `count + 1` over
only the non-empty lines **containing** that separator (contributing nothing
— equivalently 0 — when no line contains it), floored; maximum over the four
separators. -/
def estColsAmendedC5 (content : String) : Nat :=
  let lines := ((splitCh '\n' content).map pyStrip).filter (· ≠ "")
  if lines = [] then 0
  else
    [ '|', ',', '\t', ';' ].foldl (fun mx sep =>
      let cls := lines.filter (fun l => pyHasCh l sep)
      max mx (if cls = [] then 0
              else ((cls.map (fun l => pyCountCh l sep + 1)).sum) / cls.length)) 0

theorem estFold_skip_eq_max_zero (lines : List String) :
    ∀ (seps : List Char) (mx : Nat),
      seps.foldl (fun mx sep =>
        let colCounts := ((lines.filter (fun l => pyHasCh l sep)).map
          (fun l => pyCountCh l sep + 1))
        if colCounts = [] then mx
        else max mx (colCounts.sum / colCounts.length)) mx
      = seps.foldl (fun mx sep =>
        let cls := lines.filter (fun l => pyHasCh l sep)
        max mx (if cls = [] then 0
                else ((cls.map (fun l => pyCountCh l sep + 1)).sum) / cls.length)) mx := by
  intro seps
  induction seps with
  | nil => intro mx; rfl
  | cons sep seps ih =>
    intro mx
    simp only [List.foldl_cons]
    by_cases hc : lines.filter (fun l => pyHasCh l sep) = []
    · have hmap : (lines.filter (fun l => pyHasCh l sep)).map
          (fun l => pyCountCh l sep + 1) = [] := by rw [hc]; rfl
      rw [hmap, if_pos rfl, hc, if_pos rfl]
      rw [show mx ⊔ 0 = mx from by omega]
      exact ih mx
    · have hm : ((lines.filter (fun l => pyHasCh l sep)).map
          (fun l => pyCountCh l sep + 1)) ≠ [] := by
        intro h
        exact hc (List.map_eq_nil_iff.mp h)
      rw [if_neg hm, if_neg hc]
      rw [List.length_map]
      exact ih _

/-- **C5 (amended).**  `_estimate_columns` equals the amended formula: the
floor of the average of `count + 1` over the lines containing each
separator, maximized over `|`, `,`, tab, `;`. -/
theorem c5_estimate_columns_amended (content : String) :
    estimate_columns content = estColsAmendedC5 content := by
  unfold estimate_columns estColsAmendedC5
  by_cases h : ((splitCh '\n' content).map pyStrip).filter (· ≠ "") = []
  · rw [if_pos h, if_pos h]
  · rw [if_neg h, if_neg h]
    exact estFold_skip_eq_max_zero _ _ 0

/-- **C5 (counterexample).**  On the span `"a|b\nc\nd"` the code returns 2
(the single pipe-containing line has one `|`, so `count + 1 = 2`), while the
claim's average-occurrences-over-all-non-empty-lines formula gives
`max(⌊1/3⌋, 0, 0, 0) = 0`. -/
theorem c5_estimate_columns_counterexample :
    estimate_columns "a|b\nc\nd" = 2
    ∧ estColsClaimC5 "a|b\nc\nd" = 0 := by
  refine ⟨by decide, by decide⟩

/-! ## C2: markdown-table segmentation -/

/-- A well-formed table line: non-empty, no surrounding whitespace, and no
embedded newline (so that it survives `split('\n')` + strip-filter
unchanged). -/
def lineOk (s : String) : Prop :=
  s.data ≠ [] ∧ pyWs (s.data.headD ' ') = false
  ∧ pyWs (s.data.getLastD ' ') = false ∧ '\n' ∉ s.data

/-- The source form of a row block: every row followed by a newline (as the
markdown regex captures it). -/
def rowJoin (rs : List String) : String :=
  rs.foldr (fun r acc => r ++ "\n" ++ acc) ""

/-- Rows joined by single newlines, no trailing newline (the shape of the
emitted chunks after the final strip). -/
def nlJoin : List String → String
  | [] => ""
  | [r] => r
  | r :: r2 :: rs => r ++ "\n" ++ nlJoin (r2 :: rs)

/-- `len(row) + 1` summed — the character cost of a row block, one newline
per row. -/
def rowCost (rs : List String) : Nat := (rs.map (fun r => pyLen r + 1)).sum

theorem strMk_data (s : String) : String.mk s.data = s := by cases s; rfl

theorem rowCost_cons (r : String) (rs : List String) :
    rowCost (r :: rs) = pyLen r + 1 + rowCost rs := by
  unfold rowCost
  simp [Nat.add_comm]

theorem rowCost_append (a b : List String) :
    rowCost (a ++ b) = rowCost a + rowCost b := by
  unfold rowCost
  simp

theorem rowJoin_cons (r : String) (rs : List String) :
    rowJoin (r :: rs) = r ++ "\n" ++ rowJoin rs := rfl

theorem pyLen_rowJoin_cons (r : String) (rs : List String) :
    pyLen (rowJoin (r :: rs)) = pyLen r + 1 + pyLen (rowJoin rs) := by
  rw [rowJoin_cons, pyLen_append, pyLen_append]
  rfl

theorem rowJoin_eq_nlJoin :
    ∀ (g : List String), g ≠ [] → rowJoin g = nlJoin g ++ "\n" := by
  intro g
  induction g with
  | nil => intro h; exact absurd rfl h
  | cons r rs ih =>
    intro _
    cases rs with
    | nil =>
      show r ++ "\n" ++ "" = r ++ "\n"
      rw [String.append_assoc]
      rfl
    | cons r2 rs' =>
      rw [rowJoin_cons, ih (by simp)]
      show r ++ "\n" ++ (nlJoin (r2 :: rs') ++ "\n")
        = (r ++ "\n" ++ nlJoin (r2 :: rs')) ++ "\n"
      simp [String.append_assoc]

theorem getLastD_irrel : ∀ (b : List Char) (d₁ d₂ : Char), b ≠ [] →
    b.getLastD d₁ = b.getLastD d₂ := by
  intro b d₁ d₂ h
  cases b with
  | nil => exact absurd rfl h
  | cons x b' => rw [List.getLastD_cons, List.getLastD_cons]

theorem headD_append_left (a b : List Char) (d : Char) (h : a ≠ []) :
    (a ++ b).headD d = a.headD d := by
  cases a with
  | nil => exact absurd rfl h
  | cons c t => rfl

theorem getLastD_append_right :
    ∀ (a b : List Char) (d : Char), b ≠ [] → (a ++ b).getLastD d = b.getLastD d := by
  intro a
  induction a with
  | nil => intro b d _; rfl
  | cons c a' ih =>
    intro b d hb
    show ((c :: (a' ++ b)).getLastD d) = b.getLastD d
    rw [List.getLastD_cons]
    rw [ih b c hb]
    exact getLastD_irrel b c d hb

theorem dropWhile_eq_self_of_head (l : List Char) (h : pyWs (l.headD ' ') = false)
    (hne : l ≠ []) : l.dropWhile pyWs = l := by
  cases l with
  | nil => exact absurd rfl hne
  | cons c t =>
    rw [List.dropWhile_cons]
    simp only [show pyWs c = false from h, Bool.false_eq_true, if_false]

theorem headD_rev (l : List Char) (d : Char) : l.reverse.headD d = l.getLastD d := by
  rw [List.headD_eq_head?, List.head?_reverse, List.getLastD_eq_getLast?]

theorem stripList_eq_self (l : List Char) (hne : l ≠ [])
    (hh : pyWs (l.headD ' ') = false) (hl : pyWs (l.getLastD ' ') = false) :
    stripList l = l := by
  unfold stripList
  rw [dropWhile_eq_self_of_head l hh hne]
  have hrev : l.reverse ≠ [] := by simpa using hne
  rw [dropWhile_eq_self_of_head l.reverse (by rw [headD_rev]; exact hl) hrev,
    List.reverse_reverse]

theorem stripList_append_nl (l : List Char) (hne : l ≠ [])
    (hh : pyWs (l.headD ' ') = false) (hl : pyWs (l.getLastD ' ') = false) :
    stripList (l ++ ['\n']) = l := by
  unfold stripList
  rw [dropWhile_eq_self_of_head (l ++ ['\n'])
    (by rw [headD_append_left l _ _ hne]; exact hh) (by simp)]
  rw [List.reverse_append]
  show (('\n' :: l.reverse).dropWhile pyWs).reverse = l
  rw [List.dropWhile_cons]
  simp only [show pyWs '\n' = true from rfl, if_true]
  by_cases hle : l.reverse = []
  · exact absurd (by simpa using hle) hne
  · have hrevhead : pyWs (l.reverse.headD ' ') = false := by
      rw [headD_rev]
      exact hl
    rw [dropWhile_eq_self_of_head l.reverse hrevhead hle, List.reverse_reverse]

theorem splitChAux_append_nl :
    ∀ (a rest : List Char), '\n' ∉ a →
      splitChAux '\n' (a ++ '\n' :: rest) = a :: splitChAux '\n' rest := by
  intro a
  induction a with
  | nil =>
    intro rest _
    show splitChAux '\n' ('\n' :: rest) = [] :: splitChAux '\n' rest
    rw [splitChAux]
    rw [if_pos rfl]
  | cons c a' ih =>
    intro rest h
    have hc : ¬ (c = '\n') := by
      intro he
      exact h (he ▸ List.mem_cons_self c a')
    show splitChAux '\n' (c :: (a' ++ '\n' :: rest)) = (c :: a') :: splitChAux '\n' rest
    rw [splitChAux]
    rw [if_neg hc, ih rest (fun hm => h (List.mem_cons_of_mem c hm))]

theorem rowJoin_data_split :
    ∀ (rows : List String), (∀ r ∈ rows, '\n' ∉ r.data) →
      splitChAux '\n' (rowJoin rows).data = rows.map String.data ++ [[]] := by
  intro rows
  induction rows with
  | nil => intro _; rfl
  | cons r rs ih =>
    intro h
    rw [rowJoin_cons]
    have hd : (r ++ "\n" ++ rowJoin rs).data = r.data ++ '\n' :: (rowJoin rs).data := by
      rw [String.data_append, String.data_append]
      simp
    rw [hd, splitChAux_append_nl _ _ (h r (List.mem_cons_self r rs)),
      ih (fun x hx => h x (List.mem_cons_of_mem r hx))]
    rfl

theorem strip_lineOk {s : String} (h : lineOk s) : pyStrip s = s := by
  unfold pyStrip
  rw [stripList_eq_self s.data h.1 h.2.1 h.2.2.1, strMk_data]

theorem lineOk_ne {s : String} (h : lineOk s) : s ≠ "" := by
  intro he
  exact h.1 (by rw [he])

theorem pyStrip_empty : pyStrip "" = "" := rfl

theorem lines_eq (header sep : String) (rows : List String)
    (hh : lineOk header) (hs : lineOk sep) (hr : ∀ r ∈ rows, lineOk r) :
    (splitCh '\n' (header ++ "\n" ++ sep ++ "\n" ++ rowJoin rows)).filter
      (fun l => pyStrip l ≠ "") = header :: sep :: rows := by
  have hdata : (header ++ "\n" ++ sep ++ "\n" ++ rowJoin rows).data
      = header.data ++ '\n' :: (sep.data ++ '\n' :: (rowJoin rows).data) := by
    simp [String.data_append]
  have hsplit : splitCh '\n' (header ++ "\n" ++ sep ++ "\n" ++ rowJoin rows)
      = header :: sep :: (rows ++ [""]) := by
    unfold splitCh
    rw [hdata, splitChAux_append_nl _ _ hh.2.2.2, splitChAux_append_nl _ _ hs.2.2.2,
      rowJoin_data_split rows (fun r hr2 => (hr r hr2).2.2.2)]
    simp only [List.map_cons, List.map_append, List.map_map, Function.comp_def,
      strMk_data]
    simp
  rw [hsplit]
  rw [List.filter_cons, List.filter_cons]
  have hkeep : ∀ s : String, lineOk s → decide (pyStrip s ≠ "") = true := by
    intro s h
    rw [strip_lineOk h]
    simpa using lineOk_ne h
  rw [if_pos (by simpa using hkeep header hh), if_pos (by simpa using hkeep sep hs)]
  congr 1
  congr 1
  rw [List.filter_append]
  rw [show List.filter (fun l => decide (pyStrip l ≠ "")) [""] = [] from by
    simp [pyStrip_empty]]
  rw [List.append_nil]
  rw [List.filter_eq_self.mpr (fun r hr2 => hkeep r (hr r hr2))]

theorem pyLen_row (cur l : String) :
    pyLen (cur ++ l ++ "\n") = pyLen cur + pyLen l + 1 := by
  rw [pyLen_append, pyLen_append]
  rfl

theorem mdLoop_nil (target m : Nat) (base cur : String) (n : Nat) (h : cur ≠ base) :
    mdLoop target m base [] cur n = [pyStrip cur] := by
  unfold mdLoop
  rw [if_pos h]

theorem mdLoop_flush (target m : Nat) (base l : String) (ls : List String)
    (cur : String) (n : Nat) (hn : m ≤ n) (hc : cur ≠ base) :
    mdLoop target m base (l :: ls) cur n
      = pyStrip cur :: mdLoop target m base ls (base ++ l ++ "\n") 1 := by
  rw [mdLoop]
  rw [if_pos (by simp [hn]), if_pos hc]
  rfl

theorem mdLoop_fill (target m : Nat) (base : String) :
    ∀ (ls₁ ls₂ : List String) (cur : String) (n : Nat),
      n + ls₁.length ≤ m → pyLen cur + rowCost ls₁ ≤ target →
      mdLoop target m base (ls₁ ++ ls₂) cur n
        = mdLoop target m base ls₂ (cur ++ rowJoin ls₁) (n + ls₁.length) := by
  intro ls₁
  induction ls₁ with
  | nil =>
    intro ls₂ cur n _ _
    rw [List.nil_append, show rowJoin [] = "" from rfl]
    rw [show cur ++ "" = cur from strEq_of_data (by simp [String.data_append])]
    simp
  | cons l ls ih =>
    intro ls₂ cur n hn hb
    rw [show (l :: ls) ++ ls₂ = l :: (ls ++ ls₂) from rfl]
    rw [rowCost_cons] at hb
    have hcond : ¬ ((decide (target < pyLen (cur ++ l ++ "\n"))
        || decide (m ≤ n)) = true) := by
      simp only [Bool.or_eq_true, decide_eq_true_eq, not_or]
      constructor
      · rw [pyLen_row]; omega
      · simp only [List.length_cons] at hn; omega
    rw [show mdLoop target m base (l :: (ls ++ ls₂)) cur n
        = mdLoop target m base (ls ++ ls₂) (cur ++ l ++ "\n") (n + 1) from by
      rw [mdLoop]
      rw [if_neg hcond]]
    rw [ih ls₂ (cur ++ l ++ "\n") (n + 1) (by simp only [List.length_cons] at hn; omega)
      (by rw [pyLen_row]; omega)]
    rw [rowJoin_cons]
    congr 1
    · rw [String.append_assoc, String.append_assoc, String.append_assoc]
    · simp only [List.length_cons]; omega

theorem append_ne_left (base x : String) (hx : x ≠ "") : base ++ x ≠ base := by
  intro h
  have hlen := congrArg pyLen h
  rw [pyLen_append] at hlen
  exact hx (eq_empty_of_pyLen_zero (by omega))

theorem rowJoin_ne_empty {g : List String} (hg : g ≠ []) : rowJoin g ≠ "" := by
  rcases List.exists_cons_of_ne_nil hg with ⟨r, rs, rfl⟩
  intro he
  have hlen := congrArg pyLen he
  rw [pyLen_rowJoin_cons, pyLen_empty] at hlen
  omega

theorem nlJoin_last :
    ∀ (g : List String), g ≠ [] → (∀ r ∈ g, lineOk r) →
      (nlJoin g).data ≠ [] ∧ pyWs ((nlJoin g).data.getLastD ' ') = false := by
  intro g
  induction g with
  | nil => intro h; exact absurd rfl h
  | cons r rs ih =>
    intro _ hr
    cases rs with
    | nil =>
      have h := hr r (List.mem_cons_self r [])
      exact ⟨h.1, h.2.2.1⟩
    | cons r2 rs' =>
      have hih := ih (by simp) (fun x hx => hr x (List.mem_cons_of_mem r hx))
      have hdata : (nlJoin (r :: r2 :: rs')).data
          = (r ++ "\n").data ++ (nlJoin (r2 :: rs')).data := by
        show (r ++ "\n" ++ nlJoin (r2 :: rs')).data = _
        rw [String.data_append]
      constructor
      · rw [hdata]
        intro h
        rcases List.append_eq_nil.mp h with ⟨-, h2⟩
        exact hih.1 h2
      · rw [hdata, getLastD_append_right _ _ _ hih.1]
        exact hih.2


theorem row_cur_ne (base l : String) (t : List String) :
    (base ++ l ++ "\n") ++ rowJoin t ≠ base := by
  intro h
  have h2 := congrArg pyLen h
  simp only [pyLen_append] at h2
  have h1 : pyLen ("\n" : String) = 1 := rfl
  omega

theorem cur_shape (B l : String) (t : List String) :
    (B ++ l ++ "\n") ++ rowJoin t = B ++ rowJoin (l :: t) := by
  rw [rowJoin_cons]
  simp [String.append_assoc]

/-- Stripping a chunk of shape header-newline-separator-newline-rows turns the
trailing-newline row block into a newline-joined row block and changes nothing
else, provided all lines are well formed. -/
theorem strip_base_rows (header sep : String) (g : List String)
    (hh : lineOk header) (hg : g ≠ []) (hr : ∀ r ∈ g, lineOk r) :
    pyStrip (header ++ "\n" ++ sep ++ "\n" ++ rowJoin g)
      = header ++ "\n" ++ sep ++ "\n" ++ nlJoin g := by
  rw [rowJoin_eq_nlJoin g hg]
  have hassoc : header ++ "\n" ++ sep ++ "\n" ++ (nlJoin g ++ "\n")
      = (header ++ "\n" ++ sep ++ "\n" ++ nlJoin g) ++ "\n" := by
    simp [String.append_assoc]
  rw [hassoc]
  unfold pyStrip
  have hdata : ((header ++ "\n" ++ sep ++ "\n" ++ nlJoin g) ++ "\n").data
      = (header ++ "\n" ++ sep ++ "\n" ++ nlJoin g).data ++ ['\n'] := by
    rw [String.data_append]
  rw [hdata]
  have hd2 : (header ++ "\n" ++ sep ++ "\n" ++ nlJoin g).data
      = header.data ++ ('\n' :: (sep.data ++ '\n' :: (nlJoin g).data)) := by
    simp [String.data_append]
  have hlast := nlJoin_last g hg hr
  have hne : (header ++ "\n" ++ sep ++ "\n" ++ nlJoin g).data ≠ [] := by
    rw [hd2]
    intro h
    rcases List.append_eq_nil.mp h with ⟨h1, -⟩
    exact hh.1 h1
  have hhead : pyWs ((header ++ "\n" ++ sep ++ "\n" ++ nlJoin g).data.headD ' ')
      = false := by
    rw [hd2, headD_append_left _ _ _ hh.1]
    exact hh.2.1
  have hlastp : pyWs ((header ++ "\n" ++ sep ++ "\n" ++ nlJoin g).data.getLastD ' ')
      = false := by
    rw [hd2, getLastD_append_right _ _ _ (by simp), List.getLastD_cons,
      getLastD_append_right _ _ _ (by simp), List.getLastD_cons,
      getLastD_irrel _ '\n' ' ' hlast.1]
    exact hlast.2
  rw [stripList_append_nl _ hne hhead hlastp]

/-- The row loop on 25 rows with a row cap of 10 and an ample character
budget: two full flushes of 10 rows and a final flush of 5, each chunk
re-emitting the base prefix. -/
theorem mdLoop_25 (target : Nat) (B : String) (rows : List String)
    (hn : rows.length = 25)
    (hbud : pyLen B + rowCost rows ≤ target) :
    mdLoop target 10 B rows B 0
      = [pyStrip (B ++ rowJoin (rows.take 10)),
         pyStrip (B ++ rowJoin ((rows.drop 10).take 10)),
         pyStrip (B ++ rowJoin (rows.drop 20))] := by
  have h1len : (rows.take 10).length = 10 := by rw [List.length_take]; omega
  have h2len : ((rows.drop 10).take 10).length = 10 := by
    rw [List.length_take, List.length_drop]; omega
  have h3len : (rows.drop 20).length = 5 := by rw [List.length_drop]; omega
  have h1ne : rows.take 10 ≠ [] := by
    intro h; rw [h] at h1len; simp at h1len
  have h2ne : (rows.drop 10).take 10 ≠ [] := by
    intro h; rw [h] at h2len; simp at h2len
  have h3ne : rows.drop 20 ≠ [] := by
    intro h; rw [h] at h3len; simp at h3len
  obtain ⟨l2, t2, he2⟩ := List.exists_cons_of_ne_nil h2ne
  obtain ⟨l3, t3, he3⟩ := List.exists_cons_of_ne_nil h3ne
  have ht2len : t2.length = 9 := by rw [he2] at h2len; simpa using h2len
  have ht3len : t3.length = 4 := by rw [he3] at h3len; simpa using h3len
  have hd20 : (rows.drop 10).drop 10 = rows.drop 20 := by
    rw [List.drop_drop]
  have hdec : rows.drop 10 = (l2 :: t2) ++ (l3 :: t3) := by
    conv_lhs => rw [← List.take_append_drop 10 (rows.drop 10)]
    rw [he2, hd20, he3]
  have hsplit : rows = rows.take 10 ++ ((l2 :: t2) ++ (l3 :: t3)) := by
    conv_lhs => rw [← List.take_append_drop 10 rows]
    rw [hdec]
  have hc : rowCost rows = rowCost (rows.take 10)
      + (rowCost (l2 :: t2) + rowCost (l3 :: t3)) := by
    conv_lhs => rw [hsplit]
    rw [rowCost_append, rowCost_append]
  have hc2 := rowCost_cons l2 t2
  have hc3 := rowCost_cons l3 t3
  have hcost1 : 0 ≤ rowCost (rows.take 10) := Nat.zero_le _
  conv_lhs => rw [hsplit]
  rw [mdLoop_fill target 10 B (rows.take 10) ((l2 :: t2) ++ (l3 :: t3)) B 0
    (by omega) (by omega)]
  rw [List.cons_append]
  rw [mdLoop_flush target 10 B l2 (t2 ++ (l3 :: t3)) (B ++ rowJoin (rows.take 10))
    (0 + (rows.take 10).length) (by omega)
    (append_ne_left B _ (rowJoin_ne_empty h1ne))]
  rw [mdLoop_fill target 10 B t2 (l3 :: t3) (B ++ l2 ++ "\n") 1
    (by omega) (by rw [pyLen_row]; omega)]
  rw [mdLoop_flush target 10 B l3 t3 ((B ++ l2 ++ "\n") ++ rowJoin t2)
    (1 + t2.length) (by omega) (row_cur_ne B l2 t2)]
  rw [show mdLoop target 10 B t3 (B ++ l3 ++ "\n") 1
      = mdLoop target 10 B (t3 ++ []) (B ++ l3 ++ "\n") 1 from by
    rw [List.append_nil]]
  rw [mdLoop_fill target 10 B t3 [] (B ++ l3 ++ "\n") 1
    (by omega) (by rw [pyLen_row]; omega)]
  rw [mdLoop_nil target 10 B ((B ++ l3 ++ "\n") ++ rowJoin t3) (1 + t3.length)
    (row_cur_ne B l3 t3)]
  rw [cur_shape B l2 t2, cur_shape B l3 t3, ← he2, ← he3]

instance (s : String) : Decidable (lineOk s) := by
  unfold lineOk
  infer_instance

/-- C2: a markdown table made of one header row, one separator row containing
a pipe, and 25 well-formed data rows (no surrounding whitespace, no embedded
newline), chunked with `table_max_rows_per_chunk` = 10 and a `target_size` at
least the whole table's length (so the character budget is never hit), yields
exactly three chunks: header + separator + rows 1-10, header + separator +
rows 11-20, and header + separator + rows 21-25, in source order. -/
theorem c2_markdown_25_rows (target : Nat) (header sep : String)
    (rows : List String) (hh : lineOk header) (hs : lineOk sep)
    (hp : pyHasCh sep '|' = true) (hr : ∀ r ∈ rows, lineOk r)
    (hn : rows.length = 25)
    (hb : pyLen header + pyLen sep + 2 + rowCost rows ≤ target) :
    chunk_markdown_table target 10 (header ++ "\n" ++ sep ++ "\n" ++ rowJoin rows)
      = [header ++ "\n" ++ sep ++ "\n" ++ nlJoin (rows.take 10),
         header ++ "\n" ++ sep ++ "\n" ++ nlJoin ((rows.drop 10).take 10),
         header ++ "\n" ++ sep ++ "\n" ++ nlJoin (rows.drop 20)] := by
  have hsep_ne : sep ≠ "" := lineOk_ne hs
  have h1len : (rows.take 10).length = 10 := by rw [List.length_take]; omega
  have h2len : ((rows.drop 10).take 10).length = 10 := by
    rw [List.length_take, List.length_drop]; omega
  have h3len : (rows.drop 20).length = 5 := by rw [List.length_drop]; omega
  have h1ne : rows.take 10 ≠ [] := by
    intro h; rw [h] at h1len; simp at h1len
  have h2ne : (rows.drop 10).take 10 ≠ [] := by
    intro h; rw [h] at h2len; simp at h2len
  have h3ne : rows.drop 20 ≠ [] := by
    intro h; rw [h] at h3len; simp at h3len
  have hr1 : ∀ r ∈ rows.take 10, lineOk r :=
    fun r h => hr r (List.mem_of_mem_take h)
  have hr2 : ∀ r ∈ (rows.drop 10).take 10, lineOk r :=
    fun r h => hr r (List.mem_of_mem_drop (List.mem_of_mem_take h))
  have hr3 : ∀ r ∈ rows.drop 20, lineOk r :=
    fun r h => hr r (List.mem_of_mem_drop h)
  have hB : pyLen (header ++ "\n" ++ sep ++ "\n")
      = pyLen header + pyLen sep + 2 := by
    simp only [pyLen_append]
    have h1 : pyLen ("\n" : String) = 1 := rfl
    omega
  unfold chunk_markdown_table
  rw [lines_eq header sep rows hh hs hr]
  simp only []
  rw [if_neg (show ¬ ((header :: sep :: rows).length < 2) from by
    simp only [List.length_cons]; omega)]
  rw [show (header :: sep :: rows).getD 1 "" = sep from rfl]
  rw [show (header :: sep :: rows).getD 0 "" = header from rfl]
  rw [if_pos hp]
  rw [if_pos (show 2 < (header :: sep :: rows).length from by
    simp only [List.length_cons]; omega)]
  rw [show (header :: sep :: rows).drop 2 = rows from rfl]
  rw [if_pos hsep_ne]
  rw [mdLoop_25 target (header ++ "\n" ++ sep ++ "\n") rows hn (by omega)]
  rw [if_neg (show ¬ ([pyStrip (header ++ "\n" ++ sep ++ "\n" ++ rowJoin (rows.take 10)),
      pyStrip (header ++ "\n" ++ sep ++ "\n" ++ rowJoin ((rows.drop 10).take 10)),
      pyStrip (header ++ "\n" ++ sep ++ "\n" ++ rowJoin (rows.drop 20))] = []) from by
    simp)]
  rw [strip_base_rows header sep (rows.take 10) hh h1ne hr1,
    strip_base_rows header sep ((rows.drop 10).take 10) hh h2ne hr2,
    strip_base_rows header sep (rows.drop 20) hh h3ne hr3]

/-- Concrete run of `c2_markdown_25_rows`: a two-column table with 25
identical data rows and an ample target size. -/
theorem c2_markdown_25_rows_witness :
    chunk_markdown_table 1000 10
        ("|h1|h2|" ++ "\n" ++ "|---|---|" ++ "\n"
          ++ rowJoin (List.replicate 25 "|a|b|"))
      = ["|h1|h2|" ++ "\n" ++ "|---|---|" ++ "\n"
            ++ nlJoin ((List.replicate 25 "|a|b|").take 10),
         "|h1|h2|" ++ "\n" ++ "|---|---|" ++ "\n"
            ++ nlJoin (((List.replicate 25 "|a|b|").drop 10).take 10),
         "|h1|h2|" ++ "\n" ++ "|---|---|" ++ "\n"
            ++ nlJoin ((List.replicate 25 "|a|b|").drop 20)] :=
  c2_markdown_25_rows 1000 "|h1|h2|" "|---|---|" (List.replicate 25 "|a|b|")
    (by decide) (by decide) (by decide) (by decide) (by decide) (by decide)

end SChunk
